import Mathlib

/-- Python exceptions that the embedded code can raise. -/
inductive PyErr where
  | valueError (msg : String)
  | indexError
  | assertionError
  | attributeError
  | ioError (path : String)
  | eofError
  | unboundLocal
  | osError
  | tastesBad (msg : String)
  deriving DecidableEq, Repr

/-- A located binary box record: the shape list returned by
`shape_from_header` (spatial dimensions then field count) and the doubles
of the payload that follows the record-header line. -/
structure BoxRecord where
  shape : List ℕ
  payload : List ℚ
  deriving DecidableEq, Repr

/-- `np.prod` of a shape list (`np.prod([]) = 1`). -/
def npProd (l : List ℕ) : ℕ := l.prod

/-- `np.fromfile(bf, 'float64', count)` after `bf.seek(byteOff, 1)` from the
start of the payload: a negative seek target is an error, a negative count
reads to the end of the file, and a short read returns fewer items. -/
def fromfileBytes (payload : List ℚ) (byteOff : ℤ) (count : ℤ) :
    Except PyErr (List ℚ) :=
  if byteOff < 0 then .error .osError
  else
    let rest := payload.drop (byteOff.toNat / 8)
    .ok (if count < 0 then rest else rest.take count.toNat)

/-- An n-dimensional `numpy` array in Fortran (column-major) flat layout:
the entry at multi-index `(i₀, …, i_{k-1})` lives at flat position
`i₀ + d₀·(i₁ + d₁·(…))`. -/
structure NDArr where
  shape : List ℕ
  data : List ℚ
  deriving DecidableEq, Repr

/-- Column-major flattening of a multi-index against a shape. -/
def fortranFlat : List ℕ → List ℕ → ℕ
  | [], _ => 0
  | _ :: _, [] => 0
  | d :: ds, i :: is => i + d * fortranFlat ds is

/-- Entry of an `NDArr` at a multi-index (Fortran layout). -/
def NDArr.atF (a : NDArr) (ix : List ℕ) : ℚ :=
  a.data.getD (fortranFlat a.shape ix) 0

/-- `data.reshape(dims, order='F')`: attaching the target shape to the flat
column-major buffer.  `numpy` raises when the sizes disagree; the `-1`
inference feature is not reached by any input considered here, so a
negative dimension is an error. -/
def reshapeF (dims : List ℤ) (data : List ℚ) : Except PyErr NDArr :=
  if dims.all (fun d => 0 ≤ d) then
    let nd := dims.map Int.toNat
    if npProd nd = data.length then .ok ⟨nd, data⟩
    else .error (.valueError "cannot reshape array")
  else .error (.valueError "negative dimensions are not allowed")

/-- `slice(start, stop).indices(n)` for explicit integer bounds and unit
step: negative endpoints count from the end, then both are clamped into
`[0, n]`. -/
def sliceIndices (start stop : ℤ) (n : ℕ) : ℤ × ℤ :=
  (if start < 0 then max (start + n) 0 else min start n,
   if stop < 0 then max (stop + n) 0 else min stop n)

/-- A Python `slice` object with explicit integer endpoints (unit step),
as produced by the field-selection layer for a contiguous range. -/
structure PySlice where
  start : ℤ
  stop : ℤ
  deriving DecidableEq, Repr

/-- `a[..., sl]` for a slice on the last axis.  Blocks of the last axis are
contiguous in the Fortran flat layout, so this keeps the run of blocks
`[s, e)` given by `sl.indices` on the axis length. -/
def lastAxisSlice (a : NDArr) (sl : PySlice) : Except PyErr NDArr :=
  if a.shape = [] then .error .indexError
  else
    let m := a.shape.getLastD 0
    let sp := a.shape.dropLast
    let ps := npProd sp
    let se := sliceIndices sl.start sl.stop m
    .ok ⟨sp ++ [(se.2 - se.1).toNat],
         (a.data.drop (ps * se.1.toNat)).take (ps * (se.2 - se.1).toNat)⟩

/-- `a[..., js]` for an integer list on the last axis: fancy indexing.
Negative indices count from the end of the axis and an out-of-range index
raises `IndexError`. -/
def lastAxisGather (a : NDArr) (js : List ℤ) : Except PyErr NDArr :=
  if a.shape = [] then .error .indexError
  else
    let m := a.shape.getLastD 0
    let sp := a.shape.dropLast
    let ps := npProd sp
    let jn := js.map (fun j => if j < 0 then j + (m : ℤ) else j)
    if jn.all (fun j => 0 ≤ j ∧ j < (m : ℤ)) then
      .ok ⟨sp ++ [js.length],
           jn.flatMap (fun j => (a.data.drop (ps * j.toNat)).take ps)⟩
    else .error .indexError

/-- `mp_read_box_single_field`: seek past the record header and `k` field
blocks of `∏ spatial` doubles, read one block, reshape column-major into
the spatial shape.  The field index delivered by the selection layer is a
non-negative dictionary value, hence `k : ℕ`. -/
def mp_read_box_single_field (rec : BoxRecord) (k : ℕ) : Except PyErr NDArr := do
  let shape := rec.shape
  let sp := shape.dropLast
  let data ← fromfileBytes rec.payload ((npProd sp : ℤ) * k * 8) (npProd sp)
  reshapeF (sp.map (fun (d : ℕ) => (d : ℤ))) data

/-- `mp_read_box_slice_field`: resolve the slice against the field count,
seek past `start` blocks, read `stop - start` blocks, reshape into
spatial shape plus the slice length, then index the last axis with the
original slice again. -/
def mp_read_box_slice_field (rec : BoxRecord) (sl : PySlice) : Except PyErr NDArr := do
  let shape := rec.shape
  let F := shape.getLastD 0
  let sp := shape.dropLast
  let se := sliceIndices sl.start sl.stop F
  let slice_size := se.2 - se.1
  let data ← fromfileBytes rec.payload ((npProd sp : ℤ) * se.1 * 8)
      ((npProd sp : ℤ) * slice_size)
  let arr ← reshapeF ((sp.map (fun (d : ℕ) => (d : ℤ))) ++ [slice_size]) data
  lastAxisSlice arr sl

/-- `mp_read_box_index_field`: `diff = args[2][-1] - args[2][0] + 1`
(first and last entries of the index list, not min and max), seek past
`args[2][0]` blocks, read `diff` blocks, reshape, then gather the indices
translated by the first entry.  An empty index list raises `IndexError`
at `args[2][-1]`. -/
def mp_read_box_index_field (rec : BoxRecord) (js : List ℤ) : Except PyErr NDArr := do
  match js with
  | [] => .error .indexError
  | j0 :: rest =>
    let jl := (j0 :: rest).getLast (by simp)
    let diff : ℤ := jl - j0 + 1
    let sp := rec.shape.dropLast
    let data ← fromfileBytes rec.payload ((npProd sp : ℤ) * j0 * 8)
        ((npProd sp : ℤ) * diff)
    let arr ← reshapeF ((sp.map (fun (d : ℕ) => (d : ℤ))) ++ [diff]) data
    lastAxisGather arr (js.map (fun j => j - j0))

/-- The doubles of field block `k` of a record: the `k`-th run of
`∏ spatial` payload entries. -/
def fieldBlock (rec : BoxRecord) (k : ℕ) : List ℚ :=
  (rec.payload.drop (npProd rec.shape.dropLast * k)).take (npProd rec.shape.dropLast)

/-- Decidable equality of `Except` results, used to evaluate concrete runs. -/
instance {ε α : Type} [DecidableEq ε] [DecidableEq α] : DecidableEq (Except ε α) := fun a b =>
  match a, b with
  | .ok x, .ok y =>
      if h : x = y then .isTrue (by rw [h]) else .isFalse (by intro c; cases c; exact h rfl)
  | .error x, .error y =>
      if h : x = y then .isTrue (by rw [h]) else .isFalse (by intro c; cases c; exact h rfl)
  | .ok _, .error _ => .isFalse (by intro c; cases c)
  | .error _, .ok _ => .isFalse (by intro c; cases c)

/-- A record with spatial shape `[1]` and three fields holding the doubles
`10`, `20`, `30`. -/
def sliceBugRecord : BoxRecord := ⟨[1, 3], [10, 20, 30]⟩

/-- A record with spatial shape `[1]` and three fields holding the doubles
`10`, `20`, `30`. -/
def unsortedIndexRecord : BoxRecord := ⟨[1, 3], [10, 20, 30]⟩

/-- Modelled from the claim's words, for comparison with the code (C3):
read the minimal covering contiguous range `[min js, max js]` and gather
the requested offsets relative to the range start. -/
def index_read_minmax_described (rec : BoxRecord) (js : List ℤ) : Except PyErr NDArr := do
  match js with
  | [] => .error .indexError
  | j0 :: rest =>
    let jmin := (j0 :: rest).foldl min j0
    let jmax := (j0 :: rest).foldl max j0
    let diff : ℤ := jmax - jmin + 1
    let sp := rec.shape.dropLast
    let data ← fromfileBytes rec.payload ((npProd sp : ℤ) * jmin * 8)
        ((npProd sp : ℤ) * diff)
    let arr ← reshapeF ((sp.map (fun (d : ℕ) => (d : ℤ))) ++ [diff]) data
    lastAxisGather arr (js.map (fun j => j - jmin))

/-- A 3D lattice coordinate. -/
abbrev Coord : Type := ℕ × ℕ × ℕ

/-- Component of a coordinate along an axis. -/
def ax (c : Coord) (a : Fin 3) : ℕ :=
  match a with
  | 0 => c.1
  | 1 => c.2.1
  | 2 => c.2.2

/-- Replace the component of a coordinate along an axis. -/
def setAx (c : Coord) (a : Fin 3) (v : ℕ) : Coord :=
  match a with
  | 0 => (v, c.2.1, c.2.2)
  | 1 => (c.1, v, c.2.2)
  | 2 => (c.1, c.2.1, v)

/-- Elementwise `// box_rez` (`idx // box_rez` on an index triple). -/
def latDiv (rez : ℕ) (c : Coord) : Coord := (c.1 / rez, c.2.1 / rez, c.2.2 / rez)

/-- The lattice region of a box: its cell index range floor-divided by the
box resolution (`bidx_lo = idx[0] // box_rez`, `bidx_hi = idx[1] // box_rez`). -/
def latticeRegion (rez : ℕ) (p : Coord × Coord) : Coord × Coord :=
  (latDiv rez p.1, latDiv rez p.2)

/-- Membership in the inclusive lattice region `[lo, hi]` (the cells the
fill `box_array[lo0:hi0+1, lo1:hi1+1, lo2:hi2+1] = i` assigns). -/
def inRegionB (r : Coord × Coord) (c : Coord) : Bool :=
  decide (r.1.1 ≤ c.1 ∧ c.1 ≤ r.2.1 ∧ r.1.2.1 ≤ c.2.1 ∧ c.2.1 ≤ r.2.2.1 ∧
          r.1.2.2 ≤ c.2.2 ∧ c.2.2 ≤ r.2.2.2)

/-- One inclusive range fill of the box array. -/
def fillRegion (r : Coord × Coord) (i : ℤ) (arr : Coord → ℤ) : Coord → ℤ :=
  fun c => if inRegionB r c then i else arr c

/-- The fill loop `for i, idx in enumerate(indexes): box_array[...] = i`,
with the running enumeration index made explicit. -/
def fillBoxes (rez : ℕ) : ℕ → List (Coord × Coord) → (Coord → ℤ) → (Coord → ℤ)
  | _, [], arr => arr
  | i, p :: rest, arr =>
      fillBoxes rez (i + 1) rest (fillRegion (latticeRegion rez p) (i : ℤ) arr)

/-- The filled box array of one level (`compute_box_array`, array part):
`-1`-initialised, then one inclusive region fill per box in order. -/
def computeBoxArrayFill (rez : ℕ) (idxs : List (Coord × Coord)) : Coord → ℤ :=
  fillBoxes rez 0 idxs (fun _ => -1)

/-- The per-box lattice index ranges appended by the same loop
(`lv_barray_indices`). -/
def computeBarrIndices (rez : ℕ) (idxs : List (Coord × Coord)) : List (Coord × Coord) :=
  idxs.map (latticeRegion rez)

/-- `compute_box_array` for one level: the box-id array and the lattice
ranges, built by a single loop in the source and split in two passes here. -/
def computeBoxArrayLv (rez : ℕ) (idxs : List (Coord × Coord)) :
    (Coord → ℤ) × List (Coord × Coord) :=
  (computeBoxArrayFill rez idxs, computeBarrIndices rez idxs)

/-- `range(a, b)` of lattice coordinates along one axis ( `[a, b)` ). -/
def natRange (a b : ℕ) : List ℕ := (List.range (b - a)).map (a + ·)

/-- The cells of the slab `arr[lo0:hi0, lo1:hi1, lo2:hi2]` (exclusive
upper bounds, as in the source's slicing of the ghost-map slabs). -/
def range3 (lo hi : Coord) : List Coord :=
  (natRange lo.1 hi.1).flatMap (fun x =>
    (natRange lo.2.1 hi.2.1).flatMap (fun y =>
      (natRange lo.2.2 hi.2.2).map (fun z => ((x, y, z) : Coord))))

/-- `np.unique` on the gathered box ids: sorted distinct values. -/
def npUniqueInt (l : List ℤ) : List ℤ := l.dedup.insertionSort (· ≤ ·)

/-- The slab bounds for the low face along `coo`:
`idx_lo[0][coo] = max(idx_lo[0][coo] - 1, 0)` with the unmodified
(exclusive) upper corner `indices[1]`. -/
def lowSlabBounds (indices : Coord × Coord) (coo : Fin 3) : Coord × Coord :=
  (setAx indices.1 coo (max (ax indices.1 coo - 1) 0), indices.2)

/-- The slab bounds for the high face along `coo`: `idx_hi[1] += 1`
elementwise, then `idx_hi[1][coo] = min(idx_hi[1][coo] + 1,
barr_shape[coo] - 1)`. -/
def highSlabBounds (barrShape : Coord) (indices : Coord × Coord) (coo : Fin 3) :
    Coord × Coord :=
  let hi1 : Coord := (indices.2.1 + 1, indices.2.2.1 + 1, indices.2.2.2 + 1)
  (indices.1, setAx hi1 coo (min (ax hi1 coo + 1) (ax barrShape coo - 1)))

/-- The low-face neighbour list of one box along one axis: distinct box
ids in the slab, own id excluded (in `np.unique`'s sorted order). -/
def ghostFaceLow (arr : Coord → ℤ) (indices : Coord × Coord) (coo : Fin 3)
    (boxId : ℤ) : List ℤ :=
  let b := lowSlabBounds indices coo
  (npUniqueInt ((range3 b.1 b.2).map arr)).filter (fun bid => bid ≠ boxId)

/-- The high-face neighbour list of one box along one axis. -/
def ghostFaceHigh (arr : Coord → ℤ) (barrShape : Coord) (indices : Coord × Coord)
    (coo : Fin 3) (boxId : ℤ) : List ℤ :=
  let b := highSlabBounds barrShape indices coo
  (npUniqueInt ((range3 b.1 b.2).map arr)).filter (fun bid => bid ≠ boxId)

/-- The 3×2 neighbour structure of one box (`gmap`). -/
def gmapRow (arr : Coord → ℤ) (barrShape : Coord) (indices : Coord × Coord)
    (boxId : ℤ) : List (List ℤ × List ℤ) :=
  ([0, 1, 2] : List (Fin 3)).map (fun coo =>
    (ghostFaceLow arr indices coo boxId, ghostFaceHigh arr barrShape indices coo boxId))

/-- `compute_ghost_map` for one level: one 3×2 neighbour structure per
box, enumerated over `barr_indices`. -/
def computeGhostMapLv (arr : Coord → ℤ) (barrShape : Coord)
    (barrIdx : List (Coord × Coord)) : List (List (List ℤ × List ℤ)) :=
  barrIdx.enum.map (fun p => gmapRow arr barrShape p.2 (p.1 : ℤ))

/-- `np.min` of a non-empty list (the source never calls it on an empty
shape list). -/
def npMinNat (l : List ℕ) : ℕ :=
  match l with
  | [] => 0
  | a :: r => r.foldl min a

/-- The smallest edge length over all box shapes (`np.min(box_shapes)`
flattens the tuples); shapes are `hi - lo + 1` per axis as in
`unique_box_shapes` (duplicate removal does not change the minimum). -/
def minShapeEdge (idxs : List (Coord × Coord)) : ℕ :=
  npMinNat (idxs.flatMap (fun p =>
    [p.2.1 - p.1.1 + 1, p.2.2.1 - p.1.2.1 + 1, p.2.2.2 - p.1.2.2 + 1]))

/-- Pairwise disjointness of the boxes' lattice regions at resolution
`rez` — the dataset non-overlap invariant the spec assumes. -/
def LatticeDisjoint (rez : ℕ) (idxs : List (Coord × Coord)) : Prop :=
  ∀ (i j : ℕ) (hi : i < idxs.length) (hj : j < idxs.length) (c : Coord),
    inRegionB (latticeRegion rez (idxs.get ⟨i, hi⟩)) c = true →
    inRegionB (latticeRegion rez (idxs.get ⟨j, hj⟩)) c = true →
    i = j

/-- Two uniformly shaped boxes: cells `[2,3]×[4,7]×[2,5]` and
`[2,3]×[8,11]×[2,5]` in a `6×16×8` cell grid — both of shape `(2,4,4)`,
strictly inside the domain, stacked along axis 1. -/
def symCexIdxs : List (Coord × Coord) :=
  [(((2, 4, 2) : Coord), ((3, 7, 5) : Coord)), (((2, 8, 2) : Coord), ((3, 11, 5) : Coord))]

/-- The cell grid of the symmetry counterexample. -/
def symCexGrid : Coord := (6, 16, 8)

/-- One whitespace-delimited token of a header line. -/
inductive Tok where
  | i (z : ℤ)
  | q (x : ℚ)
  | s (str : String)
  | tup (l : List ℤ)
  | pathTok (dir rest : String)
  deriving DecidableEq, Repr

/-- One line of a text header. -/
abbrev Line : Type := List Tok

/-- `hfile.readline()`; at end of file Python returns an empty string,
which every subsequent numeric conversion rejects. -/
def rdLine (ls : List Line) : Except PyErr (Line × List Line) :=
  match ls with
  | [] => .error .eofError
  | l :: rest => .ok (l, rest)

/-- `int(token)`: only an integer literal converts. -/
def tokInt (t : Tok) : Except PyErr ℤ :=
  match t with
  | .i z => .ok z
  | _ => .error (.valueError "invalid literal for int")

/-- `float(token)`: a float or an integer literal converts. -/
def tokFloat (t : Tok) : Except PyErr ℚ :=
  match t with
  | .q x => .ok x
  | .i z => .ok (z : ℚ)
  | _ => .error (.valueError "could not convert string to float")

/-- `int(line)`: the line must consist of exactly one integer token. -/
def lineInt (l : Line) : Except PyErr ℤ :=
  match l with
  | [t] => tokInt t
  | _ => .error (.valueError "invalid literal for int")

/-- `float(line)`. -/
def lineFloat (l : Line) : Except PyErr ℚ :=
  match l with
  | [t] => tokFloat t
  | _ => .error (.valueError "could not convert string to float")

/-- `[float(n) for n in line.split()]`. -/
def lineFloats (l : Line) : Except PyErr (List ℚ) := l.mapM tokFloat

/-- `[int(n) for n in line.split()]`. -/
def lineInts (l : Line) : Except PyErr (List ℤ) := l.mapM tokInt

/-- A field-name line, `line.replace('\n', '')`.  The writer emits one
name token per line; other shapes are not produced on the write side. -/
def lineName (l : Line) : Except PyErr String :=
  match l with
  | [.s n] => .ok n
  | _ => .error (.valueError "not a field name line")

/-- `line.split('/')[0]`: the part of the path line before the first
slash (a line without a slash is returned whole). -/
def pathHead (l : Line) : Except PyErr String :=
  match l with
  | [.pathTok d _] => .ok d
  | [.s d] => .ok d
  | _ => .error (.valueError "not a path line")

/-- `line.split()[1::3]`: every third token starting at index 1. -/
def every3From1 : List Tok → List Tok
  | _ :: b :: _ :: rest => b :: every3From1 rest
  | [_, b] => [b]
  | _ => []

/-- The grid-sizes line: take the middle token of each
`((0,0,0) (a,b,c) (0,0,0))` triple, parse the comma tuple and add one to
every entry (`grid_size + 1`). -/
def parseGridLine (l : Line) : Except PyErr (List (List ℤ)) :=
  (every3From1 l).mapM (fun t =>
    match t with
    | .tup g => .ok (g.map (· + 1))
    | _ => .error (.valueError "invalid grid size block"))

/-- Unpack `a, b, _ = line.split()` and convert the first two with `int`. -/
def line3 (l : Line) : Except PyErr (ℤ × ℤ) :=
  match l with
  | [t1, t2, _] => do
    let a ← tokInt t1
    let b ← tokInt t2
    .ok (a, b)
  | _ => .error (.valueError "unpack expects exactly 3 values")

/-- `lo, hi = [float(n) for n in line.split()]`. -/
def lineFloatPair (l : Line) : Except PyErr (ℚ × ℚ) := do
  let fs ← lineFloats l
  match fs with
  | [lo, hi] => .ok (lo, hi)
  | _ => .error (.valueError "unpack expects exactly 2 values")

/-- The global metadata read by `__init__` before the box geometry. -/
structure HeaderMeta where
  version : Line
  nvars : ℤ
  fieldNames : List String
  ndims : ℤ
  time : ℚ
  max_level : ℤ
  geo_low : List ℚ
  geo_high : List ℚ
  factors : List ℤ
  grid_sizes : List (List ℤ)
  step_numbers : List ℤ
  dx : List (List ℚ)
  sys_coord : Line
  deriving DecidableEq, Repr

/-- `for i in range(nvars): fields[line] = i` — the names in read order. -/
def readFieldNames : ℕ → List Line → Except PyErr (List String × List Line)
  | 0, ls => .ok ([], ls)
  | n + 1, ls => do
    let (l, ls) ← rdLine ls
    let nm ← lineName l
    let (rest, ls) ← readFieldNames n ls
    .ok (nm :: rest, ls)

/-- `for i in range(max_level + 1): resolutions.append([float(n) ...])`. -/
def readFloatLines : ℕ → List Line → Except PyErr (List (List ℚ) × List Line)
  | 0, ls => .ok ([], ls)
  | n + 1, ls => do
    let (l, ls) ← rdLine ls
    let fs ← lineFloats l
    let (rest, ls) ← readFloatLines n ls
    .ok (fs :: rest, ls)

/-- `len(dict)` for the insertion-ordered field dictionary: duplicate
names collapse onto one key. -/
def dictSize (names : List String) : ℕ := names.dedup.length

/-- The line-oriented grammar of the root header up to (and including)
the `0` sentinel, in the order `__init__` consumes it. -/
def parseHeaderMeta (ls0 : List Line) : Except PyErr (HeaderMeta × List Line) := do
  let (version, ls) ← rdLine ls0
  let (l, ls) ← rdLine ls
  let nvars ← lineInt l
  let (fieldNames, ls) ← readFieldNames nvars.toNat ls
  let (l, ls) ← rdLine ls
  let ndims ← lineInt l
  let (l, ls) ← rdLine ls
  let time ← lineFloat l
  let (l, ls) ← rdLine ls
  let max_level ← lineInt l
  let (l, ls) ← rdLine ls
  let geo_low ← lineFloats l
  let (l, ls) ← rdLine ls
  let geo_high ← lineFloats l
  let (l, ls) ← rdLine ls
  let factors ← lineInts l
  let (l, ls) ← rdLine ls
  let grid_sizes ← parseGridLine l
  let (l, ls) ← rdLine ls
  let step_numbers ← lineInts l
  let (dx, ls) ← readFloatLines (max_level + 1).toNat ls
  let (sys_coord, ls) ← rdLine ls
  let (l, ls) ← rdLine ls
  let sentinel ← lineInt l
  if sentinel = 0 then
    .ok (⟨version, nvars, fieldNames, ndims, time, max_level, geo_low, geo_high,
          factors, grid_sizes, step_numbers, dx, sys_coord⟩, ls)
  else .error .assertionError

/-- The geometry of one AMR level as read by `read_boxes`. -/
structure LevelGeo where
  n_cells : ℤ
  points : List (List ℚ)
  boxes : List (List (ℚ × ℚ))
  cell_dir : String
  deriving DecidableEq, Repr

/-- The inner dimension loop of `read_boxes`: `ndims` lines of `lo hi`,
collecting centres `lo + (hi - lo)/2` and bounds `[lo, hi]`. -/
def readBoxDims : ℕ → List Line → Except PyErr ((List ℚ × List (ℚ × ℚ)) × List Line)
  | 0, ls => .ok (([], []), ls)
  | d + 1, ls => do
    let (l, ls) ← rdLine ls
    let lohi ← lineFloatPair l
    let ((pt, bx), ls) ← readBoxDims d ls
    .ok (((lohi.1 + (lohi.2 - lohi.1) / 2) :: pt, lohi :: bx), ls)

/-- The box loop of `read_boxes` at one level: `n_cells` groups of
`ndims` coordinate lines. -/
def readLevelBoxes (ndims : ℕ) :
    ℕ → List Line → Except PyErr ((List (List ℚ) × List (List (ℚ × ℚ))) × List Line)
  | 0, ls => .ok (([], []), ls)
  | n + 1, ls => do
    let ((pt, bx), ls) ← readBoxDims ndims ls
    let ((pts, bxs), ls) ← readLevelBoxes ndims n ls
    .ok ((pt :: pts, bx :: bxs), ls)

/-- One level of `read_boxes`: the `level n_cells time` line (unpacked
into exactly three tokens), the step line (kept only at level 0), the
`current_level == lv` sanity check, the box coordinate groups, and the
`Level_n/Cell` path line. -/
def readOneLevel (ndims lv : ℕ) (ls0 : List Line) :
    Except PyErr ((LevelGeo × Option Line) × List Line) := do
  let (l, ls) ← rdLine ls0
  let cl_nc ← line3 l
  let (stepLine, ls) ← rdLine ls
  let step : Option Line := if cl_nc.1 = 0 then some stepLine else none
  if cl_nc.1 = (lv : ℤ) then
    let ((pts, bxs), ls) ← readLevelBoxes ndims cl_nc.2.toNat ls
    let (l, ls) ← rdLine ls
    let cell_dir ← pathHead l
    .ok ((⟨cl_nc.2, pts, bxs, cell_dir⟩, step), ls)
  else .error .assertionError

/-- The level loop of `read_boxes`, from level `lv` for `k` levels. -/
def readBoxLevels (ndims : ℕ) :
    ℕ → ℕ → List Line → Except PyErr ((List LevelGeo × Option Line) × List Line)
  | _, 0, ls => .ok (([], none), ls)
  | lv, k + 1, ls => do
    let ((g, st), ls) ← readOneLevel ndims lv ls
    let ((gs, st2), ls) ← readBoxLevels ndims (lv + 1) k ls
    .ok ((g :: gs, st.orElse (fun _ => st2)), ls)

/-- `read_boxes`: levels `0 .. limit_level` of box geometry. -/
def read_boxes (ndims numLevels : ℕ) (ls : List Line) :
    Except PyErr ((List LevelGeo × Option Line) × List Line) :=
  readBoxLevels ndims 0 numLevels ls

/-- One line of a `Cell_H` file, at the granularity `read_cell_headers`
consumes it: skipped text, a bare integer, the `(n ...` box-count line,
a `(lo) (hi) (junk)` index-range line, a FabOnDisk line, or a
comma-separated row of min/max values (already stripped of the trailing
empty token). -/
inductive CLine where
  | skip (s : String)
  | int (z : ℤ)
  | count (n : ℤ) (rest : String)
  | idx (lo hi : List ℤ) (rest : String)
  | fob (u : String) (file : String) (off : ℤ)
  | vals (xs : List ℚ)
  deriving DecidableEq, Repr

/-- `cfile.readline()`. -/
def rdCLine (ls : List CLine) : Except PyErr (CLine × List CLine) :=
  match ls with
  | [] => .error .eofError
  | l :: rest => .ok (l, rest)

/-- `int(line)` on a cell-header line. -/
def cInt (l : CLine) : Except PyErr ℤ :=
  match l with
  | .int z => .ok z
  | _ => .error (.valueError "invalid literal for int")

/-- `int(line.split()[0].replace('(', ''))`: the box count; works for a
parenthesised or a bare first token. -/
def cCount (l : CLine) : Except PyErr ℤ :=
  match l with
  | .count n _ => .ok n
  | .int z => .ok z
  | _ => .error (.valueError "invalid literal for int")

/-- The index-range lines: `start, stop, _ = line.split()`, parens and
commas stripped, integer triples. -/
def readIdxLines : ℕ → List CLine → Except PyErr (List (List ℤ × List ℤ) × List CLine)
  | 0, ls => .ok ([], ls)
  | n + 1, ls => do
    let (l, ls) ← rdCLine ls
    match l with
    | .idx lo hi _ =>
      let (rest, ls) ← readIdxLines n ls
      .ok ((lo, hi) :: rest, ls)
    | _ => .error (.valueError "invalid index range line")

/-- The `_, file, offset = line.split()` lines. -/
def readFobLines : ℕ → List CLine → Except PyErr (List (String × ℤ) × List CLine)
  | 0, ls => .ok ([], ls)
  | n + 1, ls => do
    let (l, ls) ← rdCLine ls
    match l with
    | .fob _ f off =>
      let (rest, ls) ← readFobLines n ls
      .ok ((f, off) :: rest, ls)
    | _ => .error (.valueError "invalid file offset line")

/-- The min/max value rows. -/
def readValsLines : ℕ → List CLine → Except PyErr (List (List ℚ) × List CLine)
  | 0, ls => .ok ([], ls)
  | n + 1, ls => do
    let (l, ls) ← rdCLine ls
    match l with
    | .vals xs =>
      let (rest, ls) ← readValsLines n ls
      .ok (xs :: rest, ls)
    | _ => .error (.valueError "invalid values line")

/-- One level's cell-header data. -/
structure LevelCells where
  indexes : List (List ℤ × List ℤ)
  files : List String
  offsets : List ℤ
  mins : Option (List (List ℚ))
  maxs : Option (List (List ℚ))
  deriving DecidableEq, Repr

/-- Parse one `Cell_H` file: two preamble lines, the field-count line
checked against the metadata field count, a skip, the box-count line,
`n` index ranges, a skip, the box-count confirmation, `n` FabOnDisk
lines (file names joined onto the level directory), and, when `maxmins`
is requested, two blocks of `n` value rows each, transposed per field. -/
def parseCellFile (nfieldsExpected : ℤ) (maxmins : Bool) (dirJoin : String)
    (cl0 : List CLine) : Except PyErr LevelCells := do
  let (_, cl) ← rdCLine cl0
  let (_, cl) ← rdCLine cl
  let (l, cl) ← rdCLine cl
  let nf ← cInt l
  if nf = nfieldsExpected then
    let (_, cl) ← rdCLine cl
    let (l, cl) ← rdCLine cl
    let n_cells ← cCount l
    let (indexes, cl) ← readIdxLines n_cells.toNat cl
    let (_, cl) ← rdCLine cl
    let (l, cl) ← rdCLine cl
    let conf ← cInt l
    if conf = n_cells then
      let (fobs, cl) ← readFobLines n_cells.toNat cl
      let files := fobs.map (fun p => dirJoin ++ "/" ++ p.1)
      let offsets := fobs.map (fun p => p.2)
      if maxmins then
        let (_, cl) ← rdCLine cl
        let (_, cl) ← rdCLine cl
        let (lvmins, cl) ← readValsLines n_cells.toNat cl
        let (_, cl) ← rdCLine cl
        let (_, cl) ← rdCLine cl
        let (lvmaxs, _) ← readValsLines n_cells.toNat cl
        .ok ⟨indexes, files, offsets, some lvmins.transpose, some lvmaxs.transpose⟩
      else
        .ok ⟨indexes, files, offsets, none, none⟩
    else .error .assertionError
  else .error .assertionError

/-- The on-disk plotfile: the root header and the per-level `Cell_H`
files, keyed by the level directory name. -/
structure PlotfileDisk where
  pfile : String
  header : List Line
  cellH : String → Option (List CLine)

/-- `read_cell_headers`: one `Cell_H` per retained level, in
`cell_paths` order (a missing file is an I/O error). -/
def readCellLevels (cellH : String → Option (List CLine)) (pfile : String)
    (nfields : ℤ) (maxmins : Bool) : List String → Except PyErr (List LevelCells)
  | [] => .ok []
  | p :: rest => do
    let content ← (cellH p).elim (.error (.ioError p)) .ok
    let lc ← parseCellFile nfields maxmins (pfile ++ "/" ++ p) content
    let others ← readCellLevels cellH pfile nfields maxmins rest
    .ok (lc :: others)

/-- The parsed plotfile model: the attributes `__init__` sets.
`cells` is `none` when `header_only` skipped the cell headers (reading
it then is an attribute error). -/
structure Cooker where
  version : Line
  fields : List String
  nvars : ℤ
  ndims : ℤ
  time : ℚ
  max_level : ℤ
  geo_low : List ℚ
  geo_high : List ℚ
  factors : List ℤ
  grid_sizes : List (List ℤ)
  step_numbers : List ℤ
  dx : List (List ℚ)
  sys_coord : Line
  limit_level : ℤ
  step : Option Line
  box_centers : List (List (List ℚ))
  boxes : List (List (List (ℚ × ℚ)))
  npoints : List ℤ
  cell_paths : List String
  cells : Option (List LevelCells)
  nfields : ℕ
  deriving DecidableEq, Repr

/-- Construction options of `PlotfileCooker`. -/
structure CookCfg where
  limit_level : Option ℤ
  header_only : Bool
  validate_mode : Bool
  maxmins : Bool
  ghost : Bool
  deriving DecidableEq, Repr

/-- The error message of the limit-level check. -/
def limitMsg (ll mx : ℤ) : String :=
  "The limit level must be less or equal than the maximum AMR level of the plotfile: "
    ++ toString ll ++ " > " ++ toString mx

/-- `limit_level` resolution: `None` defaults to `max_level`, a value at
most `max_level` is accepted, anything larger raises immediately. -/
def resolveLimit (limit_level : Option ℤ) (max_level : ℤ) : Except PyErr ℤ :=
  match limit_level with
  | none => .ok max_level
  | some ll => if ll ≤ max_level then .ok ll else .error (.valueError (limitMsg ll max_level))

/-- A rendering of an exception with its diagnostic, standing in for
`traceback.format_exc()` (a function of the caught exception). -/
def errText (e : PyErr) : String :=
  match e with
  | .valueError m => "ValueError: " ++ m
  | .indexError => "IndexError: index out of range"
  | .assertionError => "AssertionError"
  | .attributeError => "AttributeError"
  | .ioError p => "FileNotFoundError: " ++ p
  | .eofError => "EOFError"
  | .unboundLocal => "UnboundLocalError"
  | .osError => "OSError"
  | .tastesBad m => "TastesBadError: " ++ m

/-- The `TastesBadError` message for a failure inside `read_boxes`. -/
def boxesMsg (tb : String) : String :=
  "PlotfileCooker encountered a fatal exception while reading the boxes"
    ++ " coordinates in the method self.read_boxes."
    ++ " This could be due to missing or badly"
    ++ " formated box data. The exception message is: " ++ tb

/-- The `TastesBadError` message for a failure inside
`read_cell_headers`. -/
def cellsMsg (tb : String) : String :=
  "PlotfileCooker encountered a fatal exception while reading the binary"
    ++ " paths and global grid indices in the level"
    ++ " headers, inside the method self.read_cell_headers."
    ++ " This could be due to missing or badly"
    ++ " formated box data. The exception message is:\n \n " ++ tb

/-- The `try/except` around a parse stage: in validate mode any
exception is re-raised as `TastesBadError` carrying the full original
diagnostic; otherwise the original exception propagates unmodified. -/
def wrapValidate {α : Type} (validate : Bool) (mk : String → String)
    (r : Except PyErr α) : Except PyErr α :=
  match r with
  | .ok a => .ok a
  | .error e => if validate then .error (.tastesBad (mk (errText e))) else .error e

/-- `__init__`, with the two data-reading stages abstracted so that the
limit-level error can be shown independent of them (they are
instantiated with the real readers in `initCooker`). -/
def initCookerAux
    (boxReader : ℕ → ℕ → List Line →
      Except PyErr ((List LevelGeo × Option Line) × List Line))
    (cellReader : (String → Option (List CLine)) → String → ℤ → Bool → List String →
      Except PyErr (List LevelCells))
    (disk : PlotfileDisk) (cfg : CookCfg) : Except PyErr Cooker := do
  let (m, rest) ← parseHeaderMeta disk.header
  let ll ← resolveLimit cfg.limit_level m.max_level
  let ((levels, step), _) ← wrapValidate cfg.validate_mode boxesMsg
    (boxReader m.ndims.toNat (ll + 1).toNat rest)
  let cell_paths := levels.map (fun g => g.cell_dir)
  let cells ← (if cfg.header_only then .ok none
    else do
      let cs ← wrapValidate cfg.validate_mode cellsMsg
        (cellReader disk.cellH disk.pfile ((dictSize m.fieldNames : ℕ) : ℤ)
          cfg.maxmins cell_paths)
      .ok (some cs) : Except PyErr (Option (List LevelCells)))
  if cfg.ghost ∧ m.ndims ≠ 3 then
    .error (.valueError "Ghost boxes are not available for plotfiles with ndims < 3")
  else
    .ok ⟨m.version, m.fieldNames, m.nvars, m.ndims, m.time, m.max_level,
         m.geo_low, m.geo_high, m.factors, m.grid_sizes, m.step_numbers, m.dx,
         m.sys_coord, ll, step,
         levels.map (fun g => g.points), levels.map (fun g => g.boxes),
         levels.map (fun g => g.n_cells), cell_paths, cells,
         dictSize m.fieldNames⟩

/-- `PlotfileCooker.__init__` with the real readers.  The lattice and
ghost-map computation triggered by `ghost=True` on 3D data is modelled
by `computeBoxArrayLv` and `computeGhostMapLv`; only its `ndims`
precondition is part of the construction flow. -/
def initCooker (disk : PlotfileDisk) (cfg : CookCfg) : Except PyErr Cooker :=
  initCookerAux read_boxes
    (fun cellH pfile nf mm paths => readCellLevels cellH pfile nf mm paths) disk cfg

/-- Python list indexing: a negative index counts from the end; out of
range raises `IndexError`. -/
def pyIdx {α : Type} (l : List α) (i : ℤ) : Except PyErr α :=
  let j := if i < 0 then i + l.length else i
  if h : 0 ≤ j ∧ j < (l.length : ℤ) then .ok (l.get ⟨j.toNat, by omega⟩)
  else .error .indexError

/-- Python list indexing with a non-negative index (`xs[i]` in a loop
over `range(...)`). -/
def pyGet {α : Type} (l : List α) (i : ℕ) : Except PyErr α :=
  if h : i < l.length then .ok (l.get ⟨i, h⟩) else .error .indexError

/-- `np.isclose` with the `np.allclose` defaults
(`rtol = 1e-5`, `atol = 1e-8`): `|a - b| ≤ atol + rtol * |b|`. -/
def rclose (a b : ℚ) : Bool :=
  decide (|a - b| ≤ 1 / 100000000 + 1 / 100000 * |b|)

/-- `np.allclose` on one level's box bounds (arrays of shape
`(n, ndims, 2)`); a ragged comparison is conservatively false. -/
def allcloseBoxes (x y : List (List (ℚ × ℚ))) : Bool :=
  decide (x.length = y.length) &&
    (x.zip y).all (fun p =>
      decide (p.1.length = p.2.length) &&
        (p.1.zip p.2).all (fun q => rclose q.1.1 q.2.1 && rclose q.1.2 q.2.2))

/-- `np.allclose` on one level's integer index ranges. -/
def allcloseIdx (x y : List (List ℤ × List ℤ)) : Bool :=
  decide (x.length = y.length) &&
    (x.zip y).all (fun p =>
      decide (p.1.1.length = p.2.1.length) && decide (p.1.2.length = p.2.2.length) &&
        ((p.1.1.zip p.2.1).all (fun q => rclose (q.1 : ℚ) (q.2 : ℚ))) &&
        ((p.1.2.zip p.2.2).all (fun q => rclose (q.1 : ℚ) (q.2 : ℚ))))

/-- The box-comparison loop of `__eq__`. -/
def pfEqBoxes (a b : Cooker) : List ℕ → Except PyErr Bool
  | [] => .ok true
  | lv :: rest => do
    let xa ← pyIdx a.boxes (lv : ℤ)
    let xb ← pyIdx b.boxes (lv : ℤ)
    if allcloseBoxes xa xb then pfEqBoxes a b rest else .ok false

/-- The index-comparison loop of `__eq__` (`self.cells[lv]['indexes']`;
missing cells — `header_only` construction — is an attribute error). -/
def pfEqCells (a b : Cooker) : List ℕ → Except PyErr Bool
  | [] => .ok true
  | lv :: rest => do
    let ca ← (a.cells.elim (.error .attributeError) .ok : Except PyErr (List LevelCells))
    let cb ← (b.cells.elim (.error .attributeError) .ok : Except PyErr (List LevelCells))
    let xa ← pyIdx ca (lv : ℤ)
    let xb ← pyIdx cb (lv : ℤ)
    if allcloseIdx xa.indexes xb.indexes then pfEqCells a b rest else .ok false

/-- `__eq__`: same `limit_level`, box geometries `np.allclose`-equal at
every level `0 .. limit_level`, and index ranges `np.allclose`-equal at
every level. -/
def pfEq (a b : Cooker) : Except PyErr Bool := do
  if a.limit_level ≠ b.limit_level then .ok false
  else do
    let r1 ← pfEqBoxes a b (List.range (a.limit_level + 1).toNat)
    if r1 then do
      let r2 ← pfEqCells a b (List.range (a.limit_level + 1).toNat)
      if r2 then .ok true else .ok false
    else .ok false

/-- `np.unique` on the field-name list: sorted distinct names (only its
length is consumed by the duplicate check). -/
def npUniqueStr (l : List String) : List String :=
  l.dedup.insertionSort (fun a b => a ≤ b)

/-- `write_global_header_new_fields`: rejects duplicate field names
before the header file is opened, then serialises the model (with the
caller-supplied field list) back into the header grammar, truncated at
`limit_level`. -/
def write_global_header_new_fields (c : Cooker) (field_names : List String) :
    Except PyErr (List Line) := do
  let nfields := field_names.length
  if field_names.length ≠ (npUniqueStr field_names).length then
    .error (.valueError "Cannot write plotfile header with duplicate fields")
  else do
    let lvs := List.range (c.limit_level + 1).toNat
    let tuples ← lvs.mapM (fun lv => do
      let gs ← pyGet c.grid_sizes lv
      if c.ndims = 3 then
        .ok ([Tok.s "((0,0,0)", Tok.tup (gs.map (· - 1)), Tok.s "(0,0,0))"] : List Tok)
      else if c.ndims = 2 then
        .ok ([Tok.s "((0,0)", Tok.tup (gs.map (· - 1)), Tok.s "(0,0))"] : List Tok)
      else .error .unboundLocal)
    let dxLines ← lvs.mapM (fun lv => do
      let d ← pyGet c.dx lv
      .ok (d.map Tok.q : Line))
    let boxSection ← lvs.mapM (fun lv => do
      let bxs ← pyGet c.boxes lv
      let stepn ← pyGet c.step_numbers lv
      let boxLines ← bxs.mapM (fun box =>
        (List.range c.ndims.toNat).mapM (fun d => do
          let p ← pyGet box d
          .ok ([Tok.q p.1, Tok.q p.2] : Line)))
      .ok ((([Tok.i (lv : ℤ), Tok.i (bxs.length : ℤ), Tok.q c.time] : Line)
        :: ([Tok.i stepn] : Line)
        :: boxLines.flatten) ++ [[Tok.pathTok ("Level_" ++ toString lv) "Cell"]]))
    .ok (([c.version, ([Tok.i (nfields : ℤ)] : Line)]
          ++ field_names.map (fun f => ([Tok.s f] : Line))
          ++ [([Tok.i c.ndims] : Line),
              ([Tok.q c.time] : Line),
              ([Tok.i c.limit_level] : Line),
              c.geo_low.map Tok.q,
              c.geo_high.map Tok.q,
              (c.factors.take (c.limit_level + 1).toNat).map Tok.i,
              tuples.flatten,
              (c.step_numbers.take (c.limit_level + 1).toNat).map Tok.i]
          ++ dxLines
          ++ [c.sys_coord, ([Tok.i 0] : Line)]
          ++ boxSection.flatten))

/-- The effect of the write on the target header file: `open(path, 'w')`
truncates only after the duplicate check passed, so a failed call leaves
the previous contents in place. -/
def write_header_file_effect (c : Cooker) (field_names : List String)
    (old : List Line) : List Line :=
  match write_global_header_new_fields c field_names with
  | .error _ => old
  | .ok written => written

/-- The per-level data stream handed out by the level-selection layer
(holding the binary files and offsets of the level; the field argument
and reader dispatch are orthogonal to level selection). -/
structure LevelDataStream where
  bfiles : List String
  offsets : List ℤ
  size : ℕ
  deriving DecidableEq, Repr

/-- `LevelDataSelector.__getitem__`: keys above `limit_level` raise
`ValueError`; any other integer indexes `self.boxes` (the cooker's
`cells` list) with Python list semantics, so negative keys count from
the end. -/
def levelSelectorGetitem (boxes : List LevelCells) (limit_level : ℤ) (key : ℤ) :
    Except PyErr LevelDataStream :=
  if limit_level < key then
    .error (.valueError ("The maximum AMR level of the plotfile is "
      ++ toString limit_level))
  else do
    let lc ← pyIdx boxes key
    .ok ⟨lc.files, lc.offsets, lc.files.length⟩

/-- A minimal parseable plotfile disk: no fields, 2D, `max_level = 0`,
an empty box section and no cell files. -/
def tinyDisk : PlotfileDisk :=
  ⟨"plt",
   [[Tok.s "HyperCLaw-V1.1"], [Tok.i 0], [Tok.i 2], [Tok.q 0], [Tok.i 0],
    [], [], [], [], [], [], [Tok.s "cartesian"], [Tok.i 0]],
   fun _ => none⟩

/-- Box centres as `read_boxes` computes them: `lo + (hi - lo)/2`. -/
def centersOf (box : List (ℚ × ℚ)) : List ℚ :=
  box.map (fun p => p.1 + (p.2 - p.1) / 2)

/-- The serialized lines of one level of the box section. -/
def writtenLevel (time : ℚ) (bxs : List (List (ℚ × ℚ))) (stepn : ℤ) (lv : ℕ) :
    List Line :=
  ([Tok.i (lv : ℤ), Tok.i (bxs.length : ℤ), Tok.q time] : Line)
    :: ([Tok.i stepn] : Line)
    :: ((bxs.map (fun box => box.map (fun p => ([Tok.q p.1, Tok.q p.2] : Line)))).flatten
      ++ [[Tok.pathTok ("Level_" ++ toString lv) "Cell"]])

/-- The serialized box section for consecutive levels starting at `lv`. -/
def writtenPairs (time : ℚ) : ℕ → List (List (List (ℚ × ℚ)) × ℤ) → List Line
  | _, [] => []
  | lv, (bxs, stepn) :: rest =>
      writtenLevel time bxs stepn lv ++ writtenPairs time (lv + 1) rest

/-- The level geometries `read_boxes` recovers from a serialized box
section. -/
def geosOf : ℕ → List (List (List (ℚ × ℚ)) × ℤ) → List LevelGeo
  | _, [] => []
  | lv, (bxs, _) :: rest =>
      ⟨(bxs.length : ℤ), bxs.map centersOf, bxs, "Level_" ++ toString lv⟩
        :: geosOf (lv + 1) rest

/-- The step line `read_boxes` stores (level 0 only). -/
def stepOf : ℕ → List (List (List (ℚ × ℚ)) × ℤ) → Option Line
  | _, [] => none
  | lv, (_, stepn) :: rest =>
      (if (lv : ℤ) = 0 then some [Tok.i stepn] else none).orElse
        (fun _ => stepOf (lv + 1) rest)

/-- The header `write_global_header_new_fields` produces (with the
grid-size sentinels `nsL`, `nsR` of the dimensionality). -/
def writtenHeader (c : Cooker) (field_names : List String) (N : ℕ)
    (nsL nsR : String) : List Line :=
  c.version :: ([Tok.i (field_names.length : ℤ)] : Line)
    :: (field_names.map (fun f => ([Tok.s f] : Line))
      ++ (([Tok.i c.ndims] : Line) :: ([Tok.q c.time] : Line)
        :: ([Tok.i c.limit_level] : Line)
        :: (c.geo_low.map Tok.q) :: (c.geo_high.map Tok.q)
        :: ((c.factors.take N).map Tok.i)
        :: (((c.grid_sizes.take N).map (fun gs =>
            ([Tok.s nsL, Tok.tup (gs.map (· - 1)), Tok.s nsR] : List Tok))).flatten)
        :: ((c.step_numbers.take N).map Tok.i)
        :: (((c.dx.take N).map (fun d => d.map Tok.q))
          ++ (c.sys_coord :: ([Tok.i 0] : Line)
            :: writtenPairs c.time 0
                ((c.boxes.take N).zip (c.step_numbers.take N))))))

/-- A minimal complete plotfile: one field, 2D, one level, one box. -/
def roundCellH : List CLine :=
  [.skip "a", .skip "b", .int 1, .skip "c", .count 1 "",
   .idx [0, 0] [3, 3] "x", .skip "d", .int 1, .fob "FabOnDisk:" "Cell_D_00000" 0]

/-- The root header and `Cell_H` of the minimal plotfile. -/
def roundDisk : PlotfileDisk :=
  ⟨"pf",
   [[Tok.s "HyperCLaw-V1.1"],
    [Tok.i 1],
    [Tok.s "temp"],
    [Tok.i 2],
    [Tok.q 0],
    [Tok.i 0],
    [Tok.q 0, Tok.q 0],
    [Tok.q 1, Tok.q 1],
    [Tok.i 2],
    [Tok.s "((0,0)", Tok.tup [3, 3], Tok.s "(0,0))"],
    [Tok.i 0],
    [Tok.q (1/2), Tok.q (1/2)],
    [Tok.i 0],
    [Tok.i 0],
    [Tok.i 0, Tok.i 1, Tok.q 0],
    [Tok.i 0],
    [Tok.q 0, Tok.q 1],
    [Tok.q 0, Tok.q 1],
    [Tok.pathTok "Level_0" "Cell"]],
   fun p => if p = "Level_0" then some roundCellH else none⟩

/-- The model `__init__` builds from `roundDisk`. -/
def roundCooker : Cooker :=
  ⟨[Tok.s "HyperCLaw-V1.1"], ["temp"], 1, 2, 0, 0, [0, 0], [1, 1], [2], [[4, 4]],
   [0], [[1/2, 1/2]], [Tok.i 0], 0, some [Tok.i 0],
   [[[0 + (1 - 0) / 2, 0 + (1 - 0) / 2]]], [[[(0, 1), (0, 1)]]], [1], ["Level_0"],
   some [⟨[([0, 0], [3, 3])], ["pf/Level_0/Cell_D_00000"], [0], none, none⟩], 1⟩

/-! ### Theorems -/

theorem fortranFlat_lt : ∀ (sh ix : List ℕ), ix.length = sh.length →
    (∀ p ∈ ix.zip sh, p.1 < p.2) → fortranFlat sh ix < npProd sh := by
  intro sh
  induction sh with
  | nil => intro ix _ _; simp [fortranFlat, npProd]
  | cons d ds ih =>
    intro ix hlen hbound
    match ix with
    | [] => simp at hlen
    | i :: is =>
      have hi : i < d := hbound (i, d) (by simp)
      have hrest : fortranFlat ds is < npProd ds := by
        refine ih is (by simpa using hlen) ?_
        intro p hp
        exact hbound p (by simp [hp])
      have : i + d * fortranFlat ds is < d * (fortranFlat ds is + 1) := by
        rw [Nat.mul_add, Nat.mul_one]; omega
      calc fortranFlat (d :: ds) (i :: is) = i + d * fortranFlat ds is := rfl
        _ < d * (fortranFlat ds is + 1) := this
        _ ≤ d * npProd ds := Nat.mul_le_mul_left d hrest
        _ = npProd (d :: ds) := by simp [npProd]

/-- C4: for a record with spatial shape `s` and `F` fields, reading field
`k < F` seeks past the record header and exactly `k` field blocks of
`∏ s` doubles, reads one block, and reshapes it column-major into the
spatial shape; the entry at any in-range multi-index is the corresponding
payload double of block `k`. -/
theorem single_field_read_correct (rec : BoxRecord) (k F : ℕ)
    (hlen : rec.payload.length = npProd rec.shape.dropLast * F)
    (hk : k < F) :
    mp_read_box_single_field rec k = .ok ⟨rec.shape.dropLast, fieldBlock rec k⟩ ∧
    ∀ ix : List ℕ, ix.length = rec.shape.dropLast.length →
      (∀ p ∈ ix.zip rec.shape.dropLast, p.1 < p.2) →
      NDArr.atF ⟨rec.shape.dropLast, fieldBlock rec k⟩ ix
        = rec.payload.getD (npProd rec.shape.dropLast * k + fortranFlat rec.shape.dropLast ix) 0 := by
  have hmap : ∀ l : List ℕ, (l.map (fun (d : ℕ) => (d : ℤ))).map Int.toNat = l := by
    intro l
    induction l with
    | nil => rfl
    | cons a t ih => simp only [List.map_cons, Int.toNat_natCast, ih]
  have hall : ∀ l : List ℕ,
      (l.map (fun (d : ℕ) => (d : ℤ))).all (fun d => decide (0 ≤ d)) = true := by
    intro l
    induction l with
    | nil => rfl
    | cons a t ih =>
      simp only [List.map_cons, List.all_cons, ih, Bool.and_true, decide_eq_true_eq]
      positivity
  have hoff : (((npProd rec.shape.dropLast : ℕ) : ℤ) * k * 8)
      = ((npProd rec.shape.dropLast * k * 8 : ℕ) : ℤ) := by push_cast; ring
  have hdiv : npProd rec.shape.dropLast * k * 8 / 8 = npProd rec.shape.dropLast * k := by
    rw [Nat.mul_div_cancel]; omega
  have hblock : fieldBlock rec k
      = (rec.payload.drop (npProd rec.shape.dropLast * k)).take (npProd rec.shape.dropLast) :=
    rfl
  have hblocklen : ((rec.payload.drop (npProd rec.shape.dropLast * k)).take
      (npProd rec.shape.dropLast)).length = npProd rec.shape.dropLast := by
    rw [List.length_take, List.length_drop, hlen]
    have h2 : npProd rec.shape.dropLast * (k + 1) ≤ npProd rec.shape.dropLast * F :=
      Nat.mul_le_mul_left _ hk
    rw [Nat.mul_add, Nat.mul_one] at h2
    omega
  have h1 : fromfileBytes rec.payload (((npProd rec.shape.dropLast : ℕ) : ℤ) * k * 8)
      ((npProd rec.shape.dropLast : ℕ) : ℤ)
      = .ok ((rec.payload.drop (npProd rec.shape.dropLast * k)).take
          (npProd rec.shape.dropLast)) := by
    rw [fromfileBytes, if_neg (not_lt.mpr (by positivity)), hoff]
    simp only [Int.toNat_natCast, hdiv]
    rw [if_neg (not_lt.mpr (by positivity))]
  constructor
  · show (do
      let data ← fromfileBytes rec.payload ((npProd rec.shape.dropLast : ℤ) * k * 8)
        (npProd rec.shape.dropLast)
      reshapeF (rec.shape.dropLast.map (fun (d : ℕ) => (d : ℤ))) data) = _
    rw [h1]
    show reshapeF (rec.shape.dropLast.map (fun (d : ℕ) => (d : ℤ))) _ = _
    rw [reshapeF, if_pos (hall _)]
    simp only [hmap]
    rw [if_pos hblocklen.symm, hblock]
  · intro ix hlen2 hb
    have hflt : fortranFlat rec.shape.dropLast ix < npProd rec.shape.dropLast :=
      fortranFlat_lt _ ix hlen2 hb
    rw [NDArr.atF, hblock]
    simp only [List.getD_eq_getElem?_getD]
    rw [List.getElem?_take, if_pos hflt, List.getElem?_drop]

/-- Witness for C4 at a concrete record: spatial shape `[2]`, 3 fields,
field 1 of payload `[1,2,3,4,5,6]` is `[3,4]`. -/
theorem single_field_read_correct_witness :
    mp_read_box_single_field ⟨[2, 3], [1, 2, 3, 4, 5, 6]⟩ 1 = .ok ⟨[2], [3, 4]⟩ :=
  ((single_field_read_correct ⟨[2, 3], [1, 2, 3, 4, 5, 6]⟩ 1 3 (by decide) (by decide)).1).trans
    (by decide)

/-- C2 fails on the code: for the contiguous range `[1,3)` on a record
with 3 fields, the final `data[..., args[2]]` re-applies the absolute
slice `1:3` to the relative axis of length 2, so the result is the single
column holding field 2 instead of the two columns holding fields 1 and 2.
The read part does seek past 1 block and read 2 blocks, but the final
indexing is not a no-op. -/
theorem slice_read_final_index_not_noop :
    mp_read_box_slice_field sliceBugRecord ⟨1, 3⟩ = .ok ⟨[1, 1], [30]⟩ ∧
    mp_read_box_slice_field sliceBugRecord ⟨1, 3⟩ ≠ .ok ⟨[1, 2], [20, 30]⟩ := by
  decide

/-- Counterexample to C3: on the unsorted index list `[1, 0]` the code
computes `diff = js[-1] - js[0] + 1 = 0`, reads zero doubles and then
raises `IndexError` gathering offset `-1` from an empty axis, whereas the
minimal-covering-range read the claim describes returns fields 1 and 0 in
order. -/
theorem index_read_unsorted_counterexample :
    mp_read_box_index_field unsortedIndexRecord [1, 0] = .error .indexError ∧
    index_read_minmax_described unsortedIndexRecord [1, 0] = .ok ⟨[1, 2], [20, 10]⟩ := by
  decide

theorem map_intCast_toNat (l : List ℕ) :
    (l.map (fun (d : ℕ) => (d : ℤ))).map Int.toNat = l := by
  induction l with
  | nil => rfl
  | cons a t ih => simp only [List.map_cons, Int.toNat_natCast, ih]

theorem map_intCast_all_nonneg (l : List ℕ) :
    (l.map (fun (d : ℕ) => (d : ℤ))).all (fun d => decide (0 ≤ d)) = true := by
  induction l with
  | nil => rfl
  | cons a t ih =>
    simp only [List.map_cons, List.all_cons, ih, Bool.and_true, decide_eq_true_eq]
    positivity

theorem fromfileBytes_nat (payload : List ℚ) (ps n : ℕ) (count : ℤ) (hc : 0 ≤ count) :
    fromfileBytes payload ((ps : ℤ) * (n : ℤ) * 8) count
      = .ok ((payload.drop (ps * n)).take count.toNat) := by
  have hoff : ((ps : ℤ) * (n : ℤ) * 8) = ((ps * n * 8 : ℕ) : ℤ) := by push_cast; ring
  have hdiv : ps * n * 8 / 8 = ps * n := by rw [Nat.mul_div_cancel]; omega
  rw [fromfileBytes, if_neg (not_lt.mpr (by positivity)), hoff]
  simp only [Int.toNat_natCast, hdiv]
  rw [if_neg (not_lt.mpr hc)]

theorem reshapeF_spatial_ok (sp : List ℕ) (q : ℤ) (data : List ℚ) (hq : 0 ≤ q)
    (hlen : data.length = npProd sp * q.toNat) :
    reshapeF ((sp.map (fun (d : ℕ) => (d : ℤ))) ++ [q]) data
      = .ok ⟨sp ++ [q.toNat], data⟩ := by
  rw [reshapeF]
  rw [if_pos (by
    rw [List.all_append, map_intCast_all_nonneg]
    simpa using hq)]
  simp only [List.map_append, map_intCast_toNat, List.map_cons, List.map_nil]
  rw [if_pos (by simp [npProd, hlen])]

theorem block_of_run (payload : List ℚ) (ps a b t : ℕ) (ht : t < b) :
    (((payload.drop (ps * a)).take (ps * b)).drop (ps * t)).take ps
      = (payload.drop (ps * (a + t))).take ps := by
  rw [List.drop_take, List.drop_drop, List.take_take]
  have h1 : ps ⊓ (ps * b - ps * t) = ps := by
    have : ps * (t + 1) ≤ ps * b := Nat.mul_le_mul_left ps ht
    rw [Nat.mul_add, Nat.mul_one] at this
    omega
  rw [h1, Nat.mul_add]

theorem flatMap_congr_mem {α β : Type} (l : List α) (f g : α → List β)
    (h : ∀ a ∈ l, f a = g a) : l.flatMap f = l.flatMap g := by
  induction l with
  | nil => rfl
  | cons a t ih =>
    simp only [List.flatMap_cons]
    rw [h a (by simp), ih (fun b hb => h b (by simp [hb]))]

theorem head?_some_cons {l : List ℤ} {j0 : ℤ} (h : l.head? = some j0) :
    ∃ t, l = j0 :: t := by
  cases l with
  | nil => simp at h
  | cons a t =>
    refine ⟨t, ?_⟩
    simp only [List.head?_cons, Option.some_inj] at h
    rw [h]

theorem sorted_le_getLast : ∀ (l : List ℤ), l.Sorted (· ≤ ·) → ∀ (jl : ℤ),
    l.getLast? = some jl → ∀ j ∈ l, j ≤ jl := by
  intro l
  induction l with
  | nil => intro _ jl h; simp at h
  | cons a t ih =>
    intro hs jl hlast j hj
    cases t with
    | nil =>
      simp only [List.getLast?_singleton, Option.some_inj] at hlast
      simp only [List.mem_singleton] at hj
      omega
    | cons b t2 =>
      rw [List.getLast?_cons_cons] at hlast
      have hts : (b :: t2).Sorted (· ≤ ·) := (List.sorted_cons.mp hs).2
      have hb : b ≤ jl := ih hts jl hlast b (by simp)
      rcases List.mem_cons.mp hj with rfl | hj2
      · have hab : j ≤ b := (List.sorted_cons.mp hs).1 b (by simp)
        omega
      · exact ih hts jl hlast j hj2

theorem lastAxisGather_blocks (sp : List ℕ) (m : ℕ) (data : List ℚ) (js : List ℤ)
    (hall : ∀ j ∈ js, 0 ≤ j ∧ j < (m : ℤ)) :
    lastAxisGather ⟨sp ++ [m], data⟩ js
      = .ok ⟨sp ++ [js.length],
             js.flatMap (fun j => (data.drop (npProd sp * j.toNat)).take (npProd sp))⟩ := by
  rw [lastAxisGather]
  rw [if_neg (by simp)]
  simp only [List.getLastD_concat, List.dropLast_concat]
  have hjn : js.map (fun j => if j < 0 then j + (m : ℤ) else j) = js := by
    have h1 : ∀ j ∈ js, (if j < 0 then j + (m : ℤ) else j) = id j := by
      intro j hj
      simp only [id]
      rw [if_neg (not_lt.mpr (hall j hj).1)]
    rw [List.map_congr_left h1, List.map_id]
  rw [hjn]
  rw [if_pos (List.all_eq_true.mpr (fun j hj => by
    have h2 := hall j hj
    simp only [decide_eq_true_eq]
    omega))]

theorem intCast_mul_toNat (ps : ℕ) (q : ℤ) (hq : 0 ≤ q) :
    ((ps : ℤ) * q).toNat = ps * q.toNat := by
  obtain ⟨n, rfl⟩ := Int.eq_ofNat_of_zero_le hq
  rw [← Nat.cast_mul, Int.toNat_natCast, Int.toNat_natCast]

theorem slice_read_from_zero (rec : BoxRecord) (stop : ℤ) (F : ℕ)
    (hF : rec.shape.getLastD 0 = F) (h0 : 0 ≤ stop) (hsF : stop ≤ (F : ℤ))
    (hlen : rec.payload.length = npProd rec.shape.dropLast * F) :
    mp_read_box_slice_field rec ⟨0, stop⟩
      = .ok ⟨rec.shape.dropLast ++ [stop.toNat],
             rec.payload.take (npProd rec.shape.dropLast * stop.toNat)⟩ := by
  have hse : sliceIndices 0 stop F = (0, stop) := by
    rw [sliceIndices]
    rw [if_neg (by omega), if_neg (not_lt.mpr h0)]
    rw [min_eq_left (Int.natCast_nonneg F), min_eq_left hsF]
  have hcnt : (0 : ℤ) ≤ (npProd rec.shape.dropLast : ℤ) * (stop - 0) := by
    apply mul_nonneg (Int.natCast_nonneg _)
    omega
  have hread : fromfileBytes rec.payload ((npProd rec.shape.dropLast : ℤ) * (0 : ℤ) * 8)
      ((npProd rec.shape.dropLast : ℤ) * (stop - 0))
      = .ok (rec.payload.take (npProd rec.shape.dropLast * stop.toNat)) := by
    have h1 := fromfileBytes_nat rec.payload (npProd rec.shape.dropLast) 0
      ((npProd rec.shape.dropLast : ℤ) * (stop - 0)) hcnt
    have h2 : ((npProd rec.shape.dropLast : ℤ) * (stop - 0)).toNat
        = npProd rec.shape.dropLast * stop.toNat := by
      rw [show stop - 0 = stop from by omega, intCast_mul_toNat _ _ h0]
    rw [h2] at h1
    simpa using h1
  have hdatalen : (rec.payload.take (npProd rec.shape.dropLast * stop.toNat)).length
      = npProd rec.shape.dropLast * (stop - 0).toNat := by
    rw [List.length_take, hlen]
    have hstopF : stop.toNat ≤ F := by omega
    have := Nat.mul_le_mul_left (npProd rec.shape.dropLast) hstopF
    rw [show stop - 0 = stop from by omega]
    omega
  simp only [mp_read_box_slice_field, hF, hse]
  rw [hread]
  show (do
    let arr ← reshapeF ((rec.shape.dropLast.map (fun (d : ℕ) => (d : ℤ))) ++ [stop - 0])
      (rec.payload.take (npProd rec.shape.dropLast * stop.toNat))
    lastAxisSlice arr ⟨0, stop⟩) = _
  rw [reshapeF_spatial_ok _ _ _ (by omega) hdatalen]
  show lastAxisSlice ⟨rec.shape.dropLast ++ [(stop - 0).toNat], _⟩ ⟨0, stop⟩ = _
  rw [lastAxisSlice, if_neg (by simp)]
  simp only [List.getLastD_concat, List.dropLast_concat]
  have hse2 : sliceIndices 0 stop ((stop - 0).toNat) = (0, stop) := by
    rw [sliceIndices]
    rw [if_neg (by omega), if_neg (not_lt.mpr h0)]
    rw [min_eq_left (Int.natCast_nonneg _), min_eq_left (by omega)]
  rw [hse2]
  have hz : stop - (0 : ℤ) = stop := by omega
  simp only [hz, Int.toNat_zero, Nat.mul_zero, List.drop_zero, List.take_take, min_self]

theorem exceptBind_ok {α β : Type} (a : α) (f : α → Except PyErr β) :
    (Except.ok a >>= f) = f a := rfl

/-- C3 amended: for a non-empty ascending-sorted list of in-range field
indices, the first and last entries are the minimum and maximum, the
covering contiguous run `[js[0], js[-1]]` is read, and the gathered
offsets (relative to the run start) give exactly the requested field
blocks in order; in particular the read equals reading the contiguous
range `[0, max+1)` with the slice reader and then selecting the requested
columns.  On unsorted input the equivalence fails (see the
counterexample). -/
theorem index_read_sorted_correct (rec : BoxRecord) (js : List ℤ) (j0 jl : ℤ) (F : ℕ)
    (hhead : js.head? = some j0) (hlast : js.getLast? = some jl)
    (hsort : js.Sorted (· ≤ ·)) (hj0 : 0 ≤ j0) (hjl : jl < (F : ℤ))
    (hF : rec.shape.getLastD 0 = F)
    (hlen : rec.payload.length = npProd rec.shape.dropLast * F) :
    mp_read_box_index_field rec js
      = .ok ⟨rec.shape.dropLast ++ [js.length],
             js.flatMap (fun j =>
               (rec.payload.drop (npProd rec.shape.dropLast * j.toNat)).take
                 (npProd rec.shape.dropLast))⟩ ∧
    (mp_read_box_slice_field rec ⟨0, jl + 1⟩ >>= fun a => lastAxisGather a js)
      = mp_read_box_index_field rec js := by
  obtain ⟨rest, rfl⟩ := head?_some_cons hhead
  have hmem_le : ∀ j ∈ j0 :: rest, j ≤ jl := sorted_le_getLast _ hsort jl hlast
  have hmem_ge : ∀ j ∈ j0 :: rest, j0 ≤ j := by
    intro j hj
    rcases List.mem_cons.mp hj with rfl | hj2
    · exact le_refl j
    · exact (List.sorted_cons.mp hsort).1 j hj2
  have hj0jl : j0 ≤ jl := hmem_le j0 (by simp)
  have hlastval : ∀ (p : (j0 :: rest : List ℤ) ≠ []), (j0 :: rest).getLast p = jl := by
    intro p
    have h1 := List.getLast?_eq_getLast (j0 :: rest) p
    rw [hlast] at h1
    exact (Option.some_inj.mp h1).symm
  have hA : mp_read_box_index_field rec (j0 :: rest)
      = .ok ⟨rec.shape.dropLast ++ [(j0 :: rest).length],
             (j0 :: rest).flatMap (fun j =>
               (rec.payload.drop (npProd rec.shape.dropLast * j.toNat)).take
                 (npProd rec.shape.dropLast))⟩ := by
    simp only [mp_read_box_index_field]
    rw [hlastval]
    have hj0cast : ((npProd rec.shape.dropLast : ℤ) * j0 * 8)
        = ((npProd rec.shape.dropLast : ℤ) * ((j0.toNat : ℕ) : ℤ) * 8) := by
      rw [Int.toNat_of_nonneg hj0]
    have hrw1 : fromfileBytes rec.payload ((npProd rec.shape.dropLast : ℤ) * j0 * 8)
        ((npProd rec.shape.dropLast : ℤ) * (jl - j0 + 1))
        = .ok ((rec.payload.drop (npProd rec.shape.dropLast * j0.toNat)).take
            (npProd rec.shape.dropLast * (jl - j0 + 1).toNat)) := by
      rw [hj0cast, fromfileBytes_nat _ _ _ _
        (mul_nonneg (Int.natCast_nonneg _) (by omega))]
      rw [intCast_mul_toNat _ _ (by omega)]
    rw [hrw1, exceptBind_ok]
    have hdlen : ((rec.payload.drop (npProd rec.shape.dropLast * j0.toNat)).take
        (npProd rec.shape.dropLast * (jl - j0 + 1).toNat)).length
        = npProd rec.shape.dropLast * (jl - j0 + 1).toNat := by
      rw [List.length_take, List.length_drop, hlen]
      have h1 : j0.toNat + (jl - j0 + 1).toNat ≤ F := by omega
      have h2 := Nat.mul_le_mul_left (npProd rec.shape.dropLast) h1
      rw [Nat.mul_add] at h2
      omega
    rw [reshapeF_spatial_ok _ _ _ (by omega) hdlen, exceptBind_ok]
    rw [lastAxisGather_blocks _ _ _ _ (by
      intro t ht
      obtain ⟨j, hj, rfl⟩ := List.mem_map.mp ht
      have h3 := hmem_ge j hj
      have h4 := hmem_le j hj
      constructor
      · omega
      · have h5 : ((jl - j0 + 1).toNat : ℤ) = jl - j0 + 1 := by omega
        omega)]
    rw [List.flatMap_map]
    have hshape : ((j0 :: rest).map (fun j => j - j0)).length = (j0 :: rest).length :=
      List.length_map _ _
    rw [hshape]
    have hdata : (j0 :: rest).flatMap (fun j =>
        ((((rec.payload.drop (npProd rec.shape.dropLast * j0.toNat)).take
          (npProd rec.shape.dropLast * (jl - j0 + 1).toNat)).drop
            (npProd rec.shape.dropLast * (j - j0).toNat)).take
              (npProd rec.shape.dropLast)))
        = (j0 :: rest).flatMap (fun j =>
            (rec.payload.drop (npProd rec.shape.dropLast * j.toNat)).take
              (npProd rec.shape.dropLast)) := by
      apply flatMap_congr_mem
      intro j hj
      have h3 := hmem_ge j hj
      have h4 := hmem_le j hj
      have h6 := block_of_run rec.payload (npProd rec.shape.dropLast)
        j0.toNat ((jl - j0 + 1).toNat) ((j - j0).toNat) (by omega)
      rw [h6]
      have h7 : j0.toNat + (j - j0).toNat = j.toNat := by omega
      rw [h7]
    rw [hdata]
  refine ⟨hA, ?_⟩
  rw [slice_read_from_zero rec (jl + 1) F hF (by omega) (by omega) hlen, exceptBind_ok]
  have hm : ((jl + 1).toNat : ℤ) = jl + 1 := by omega
  rw [lastAxisGather_blocks _ _ _ _ (by
    intro j hj
    have h3 := hmem_ge j hj
    have h4 := hmem_le j hj
    constructor
    · omega
    · omega)]
  rw [hA]
  have hdata2 : (j0 :: rest).flatMap (fun j =>
      ((rec.payload.take (npProd rec.shape.dropLast * (jl + 1).toNat)).drop
        (npProd rec.shape.dropLast * j.toNat)).take (npProd rec.shape.dropLast))
      = (j0 :: rest).flatMap (fun j =>
          (rec.payload.drop (npProd rec.shape.dropLast * j.toNat)).take
            (npProd rec.shape.dropLast)) := by
    apply flatMap_congr_mem
    intro j hj
    have h3 := hmem_ge j hj
    have h4 := hmem_le j hj
    have h6 := block_of_run rec.payload (npProd rec.shape.dropLast)
      0 ((jl + 1).toNat) j.toNat (by omega)
    simp only [Nat.mul_zero, List.drop_zero, Nat.zero_add] at h6
    rw [h6]
  rw [hdata2]

/-- Witness for the amended C3 at the claim's own example `{0,2,5}` on a
record with 6 fields. -/
theorem index_read_sorted_correct_witness :
    mp_read_box_index_field ⟨[1, 6], [10, 11, 12, 13, 14, 15]⟩ [0, 2, 5]
      = .ok ⟨[1, 3], [10, 12, 15]⟩ ∧
    (mp_read_box_slice_field ⟨[1, 6], [10, 11, 12, 13, 14, 15]⟩ ⟨0, 6⟩ >>= fun a =>
      lastAxisGather a [0, 2, 5])
      = mp_read_box_index_field ⟨[1, 6], [10, 11, 12, 13, 14, 15]⟩ [0, 2, 5] := by
  have h := index_read_sorted_correct ⟨[1, 6], [10, 11, 12, 13, 14, 15]⟩ [0, 2, 5] 0 5 6
    (by decide) (by decide) (by decide) (by decide) (by decide) (by decide) (by decide)
  exact ⟨h.1.trans (by decide), h.2⟩

theorem inRegionB_iff (r : Coord × Coord) (c : Coord) :
    inRegionB r c = true ↔ (r.1.1 ≤ c.1 ∧ c.1 ≤ r.2.1 ∧ r.1.2.1 ≤ c.2.1 ∧
      c.2.1 ≤ r.2.2.1 ∧ r.1.2.2 ≤ c.2.2 ∧ c.2.2 ≤ r.2.2.2) := by
  rw [inRegionB, decide_eq_true_eq]

theorem fillBoxes_untouched (rez : ℕ) : ∀ (i : ℕ) (l : List (Coord × Coord))
    (arr : Coord → ℤ) (c : Coord),
    (∀ (k : ℕ) (hk : k < l.length), inRegionB (latticeRegion rez (l.get ⟨k, hk⟩)) c = false) →
    fillBoxes rez i l arr c = arr c := by
  intro i l
  induction l generalizing i with
  | nil => intro arr c _; rfl
  | cons p rest ih =>
    intro arr c hnone
    show fillBoxes rez (i + 1) rest (fillRegion (latticeRegion rez p) (i : ℤ) arr) c = arr c
    rw [ih (i + 1) _ c (fun k hk => hnone (k + 1) (Nat.succ_lt_succ hk))]
    rw [fillRegion]
    have h0 : inRegionB (latticeRegion rez p) c = false := hnone 0 (Nat.succ_pos _)
    rw [if_neg (by rw [h0]; simp)]

theorem fillBoxes_own (rez : ℕ) : ∀ (i : ℕ) (l : List (Coord × Coord))
    (arr : Coord → ℤ) (c : Coord) (k : ℕ) (hk : k < l.length),
    inRegionB (latticeRegion rez (l.get ⟨k, hk⟩)) c = true →
    (∀ (j : ℕ) (hj : j < l.length),
      inRegionB (latticeRegion rez (l.get ⟨j, hj⟩)) c = true → j = k) →
    fillBoxes rez i l arr c = ((i + k : ℕ) : ℤ) := by
  intro i l
  induction l generalizing i with
  | nil => intro _ _ k hk; simp at hk
  | cons p rest ih =>
    intro arr c k hk hin huniq
    show fillBoxes rez (i + 1) rest (fillRegion (latticeRegion rez p) (i : ℤ) arr) c = _
    match k with
    | 0 =>
      have hnone : ∀ (j : ℕ) (hj : j < rest.length),
          inRegionB (latticeRegion rez (rest.get ⟨j, hj⟩)) c = false := by
        intro j hj
        by_contra hcon
        have h2 : j + 1 = 0 := huniq (j + 1) (Nat.succ_lt_succ hj)
          (Bool.not_eq_false _ |>.mp hcon)
        omega
      rw [fillBoxes_untouched rez (i + 1) rest _ c hnone]
      have hin0 : inRegionB (latticeRegion rez p) c = true := hin
      rw [fillRegion, if_pos hin0]
      simp
    | k' + 1 =>
      have hk' : k' < rest.length := Nat.lt_of_succ_lt_succ hk
      have hin' : inRegionB (latticeRegion rez (rest.get ⟨k', hk'⟩)) c = true := hin
      have h1 := ih (i + 1) (fillRegion (latticeRegion rez p) (i : ℤ) arr) c k' hk' hin'
        (fun j hj hjin => by
          have h3 := huniq (j + 1) (Nat.succ_lt_succ hj) hjin
          omega)
      rw [h1]
      congr 1
      omega

theorem fillBoxes_mem (rez : ℕ) : ∀ (i : ℕ) (l : List (Coord × Coord))
    (arr : Coord → ℤ) (c : Coord) (v : ℤ),
    fillBoxes rez i l arr c = v →
    v = arr c ∨ ∃ (k : ℕ) (hk : k < l.length),
      v = ((i + k : ℕ) : ℤ) ∧ inRegionB (latticeRegion rez (l.get ⟨k, hk⟩)) c = true := by
  intro i l
  induction l generalizing i with
  | nil => intro arr c v h; exact Or.inl h.symm
  | cons p rest ih =>
    intro arr c v h
    have h2 := ih (i + 1) (fillRegion (latticeRegion rez p) (i : ℤ) arr) c v h
    rcases h2 with h3 | ⟨k, hk, hv, hin⟩
    · rw [fillRegion] at h3
      by_cases hc : inRegionB (latticeRegion rez p) c = true
      · rw [if_pos hc] at h3
        refine Or.inr ⟨0, by simp, ?_, by simpa using hc⟩
        simpa using h3
      · rw [if_neg hc] at h3
        exact Or.inl h3
    · refine Or.inr ⟨k + 1, Nat.succ_lt_succ hk, ?_, hin⟩
      rw [hv]
      congr 1
      omega

theorem ax_setAx_self (c : Coord) (a : Fin 3) (v : ℕ) : ax (setAx c a v) a = v := by
  fin_cases a <;> rfl

theorem ax_setAx_other (c : Coord) (a d : Fin 3) (v : ℕ) (h : d ≠ a) :
    ax (setAx c a v) d = ax c d := by
  fin_cases a <;> fin_cases d <;> simp_all <;> rfl

theorem ax_addOne (c : Coord) (a : Fin 3) :
    ax ((c.1 + 1, c.2.1 + 1, c.2.2 + 1) : Coord) a = ax c a + 1 := by
  fin_cases a <;> rfl

theorem inRegionB_iff_ax (r : Coord × Coord) (c : Coord) :
    inRegionB r c = true ↔ ∀ a : Fin 3, ax r.1 a ≤ ax c a ∧ ax c a ≤ ax r.2 a := by
  rw [inRegionB_iff]
  constructor
  · intro h a
    fin_cases a
    · exact ⟨h.1, h.2.1⟩
    · exact ⟨h.2.2.1, h.2.2.2.1⟩
    · exact ⟨h.2.2.2.2.1, h.2.2.2.2.2⟩
  · intro h
    exact ⟨(h 0).1, (h 0).2, (h 1).1, (h 1).2, (h 2).1, (h 2).2⟩

theorem mem_natRange {a b x : ℕ} : x ∈ natRange a b ↔ a ≤ x ∧ x < b := by
  simp only [natRange, List.mem_map, List.mem_range]
  constructor
  · rintro ⟨t, ht, rfl⟩
    omega
  · intro h
    exact ⟨x - a, by omega, by omega⟩

theorem mem_range3 {lo hi c : Coord} : c ∈ range3 lo hi ↔
    (lo.1 ≤ c.1 ∧ c.1 < hi.1) ∧ (lo.2.1 ≤ c.2.1 ∧ c.2.1 < hi.2.1) ∧
    (lo.2.2 ≤ c.2.2 ∧ c.2.2 < hi.2.2) := by
  obtain ⟨cx, cy, cz⟩ := c
  simp only [range3, List.mem_flatMap, List.mem_map, mem_natRange]
  constructor
  · rintro ⟨x, hx, y, hy, z, hz, heq⟩
    obtain ⟨rfl, rfl, rfl⟩ : x = cx ∧ y = cy ∧ z = cz := by
      simpa [Prod.ext_iff] using heq
    exact ⟨hx, hy, hz⟩
  · rintro ⟨h1, h2, h3⟩
    exact ⟨cx, h1, cy, h2, cz, h3, rfl⟩

theorem mem_range3_ax {lo hi c : Coord} : c ∈ range3 lo hi ↔
    ∀ a : Fin 3, ax lo a ≤ ax c a ∧ ax c a < ax hi a := by
  rw [mem_range3]
  constructor
  · intro h a
    fin_cases a
    · exact h.1
    · exact h.2.1
    · exact h.2.2
  · intro h
    exact ⟨h 0, h 1, h 2⟩

theorem mem_npUniqueInt {l : List ℤ} {x : ℤ} : x ∈ npUniqueInt l ↔ x ∈ l := by
  rw [npUniqueInt, List.mem_insertionSort, List.mem_dedup]

theorem mem_faceList {arr : Coord → ℤ} {lo hi : Coord} {boxId x : ℤ} :
    x ∈ (npUniqueInt ((range3 lo hi).map arr)).filter (fun bid => bid ≠ boxId) ↔
      x ≠ boxId ∧ ∃ c ∈ range3 lo hi, arr c = x := by
  rw [List.mem_filter, mem_npUniqueInt, List.mem_map]
  constructor
  · rintro ⟨⟨c, hc, rfl⟩, hp⟩
    simp only [ne_eq, decide_not, Bool.not_eq_eq_eq_not, Bool.not_true,
      decide_eq_false_iff_not] at hp
    exact ⟨hp, c, hc, rfl⟩
  · rintro ⟨hne, c, hc, rfl⟩
    refine ⟨⟨c, hc, rfl⟩, by simpa using hne⟩

theorem faceList_eq_nil {arr : Coord → ℤ} {lo hi : Coord} {boxId : ℤ}
    (h : ∀ c ∈ range3 lo hi, arr c = boxId) :
    (npUniqueInt ((range3 lo hi).map arr)).filter (fun bid => bid ≠ boxId) = [] := by
  apply List.filter_eq_nil_iff.mpr
  intro a ha
  rw [mem_npUniqueInt, List.mem_map] at ha
  obtain ⟨c, hc, rfl⟩ := ha
  simp [h c hc]

theorem mem_ghostFaceLow {arr : Coord → ℤ} {indices : Coord × Coord} {coo : Fin 3}
    {boxId x : ℤ} :
    x ∈ ghostFaceLow arr indices coo boxId ↔
      x ≠ boxId ∧ ∃ c ∈ range3 (lowSlabBounds indices coo).1 (lowSlabBounds indices coo).2,
        arr c = x :=
  mem_faceList

theorem mem_ghostFaceHigh {arr : Coord → ℤ} {barrShape : Coord}
    {indices : Coord × Coord} {coo : Fin 3} {boxId x : ℤ} :
    x ∈ ghostFaceHigh arr barrShape indices coo boxId ↔
      x ≠ boxId ∧ ∃ c ∈ range3 (highSlabBounds barrShape indices coo).1
        (highSlabBounds barrShape indices coo).2, arr c = x :=
  mem_faceList

/-- C7: in a 3D plotfile with pairwise disjoint, in-bounds lattice
regions, every box whose lattice region touches the lattice boundary on
some axis (low index 0, or high index equal to the lattice extent minus
one) has an empty neighbour list on that axis's outward face: the slab
scanned outside such a face stays inside the box's own region, whose
cells all hold the box's own id, and the own id is filtered out.  The
last conjunct places the two face lists inside the structure
`compute_ghost_map` returns. -/
theorem ghost_map_boundary_faces_empty (rez : ℕ) (gridSize : Coord)
    (idxs : List (Coord × Coord)) (i : ℕ) (hi : i < idxs.length) (coo : Fin 3)
    (hdisj : LatticeDisjoint rez idxs)
    (_hbound : ∀ (k : ℕ) (hk : k < idxs.length) (a : Fin 3),
      ax (latticeRegion rez (idxs.get ⟨k, hk⟩)).2 a ≤ ax (latDiv rez gridSize) a - 1) :
    (ax (latticeRegion rez (idxs.get ⟨i, hi⟩)).1 coo = 0 →
      ghostFaceLow (computeBoxArrayFill rez idxs)
        (latticeRegion rez (idxs.get ⟨i, hi⟩)) coo (i : ℤ) = []) ∧
    (ax (latticeRegion rez (idxs.get ⟨i, hi⟩)).2 coo = ax (latDiv rez gridSize) coo - 1 →
      ghostFaceHigh (computeBoxArrayFill rez idxs) (latDiv rez gridSize)
        (latticeRegion rez (idxs.get ⟨i, hi⟩)) coo (i : ℤ) = []) ∧
    (computeGhostMapLv (computeBoxArrayFill rez idxs) (latDiv rez gridSize)
        (computeBarrIndices rez idxs))[i]?
      = some (gmapRow (computeBoxArrayFill rez idxs) (latDiv rez gridSize)
          (latticeRegion rez (idxs.get ⟨i, hi⟩)) (i : ℤ)) := by
  have hown : ∀ c : Coord, inRegionB (latticeRegion rez (idxs.get ⟨i, hi⟩)) c = true →
      computeBoxArrayFill rez idxs c = (i : ℤ) := by
    intro c hc
    have h1 := fillBoxes_own rez 0 idxs (fun _ => -1) c i hi hc
      (fun j hj hjin => hdisj j i hj hi c hjin hc)
    simpa using h1
  refine ⟨?_, ?_, ?_⟩
  · intro h0
    apply faceList_eq_nil
    intro c hc
    apply hown
    rw [inRegionB_iff_ax]
    intro a
    rw [mem_range3_ax] at hc
    have hca := hc a
    simp only [lowSlabBounds] at hca
    by_cases hd : a = coo
    · subst hd
      rw [ax_setAx_self] at hca
      omega
    · rw [ax_setAx_other _ _ _ _ hd] at hca
      omega
  · intro h0
    apply faceList_eq_nil
    intro c hc
    apply hown
    rw [inRegionB_iff_ax]
    intro a
    rw [mem_range3_ax] at hc
    have hca := hc a
    simp only [highSlabBounds] at hca
    by_cases hd : a = coo
    · subst hd
      rw [ax_setAx_self, ax_addOne] at hca
      omega
    · rw [ax_setAx_other _ _ _ _ hd] at hca
      rw [ax_addOne] at hca
      omega
  · rw [computeGhostMapLv, List.getElem?_map, List.getElem?_enum]
    have h2 : (computeBarrIndices rez idxs)[i]?
        = some (latticeRegion rez (idxs.get ⟨i, hi⟩)) := by
      rw [computeBarrIndices, List.getElem?_map, List.getElem?_eq_getElem hi]
      rfl
    rw [h2]
    rfl

/-- Witness for C7: a single box filling a 2×2×2 lattice touches every
boundary; both faces along axis 0 have empty neighbour lists. -/
theorem ghost_map_boundary_faces_empty_witness :
    ghostFaceLow (computeBoxArrayFill 1 [(((0, 0, 0) : Coord), ((1, 1, 1) : Coord))])
      (latticeRegion 1 (((0, 0, 0) : Coord), ((1, 1, 1) : Coord))) 0 (0 : ℤ) = [] ∧
    ghostFaceHigh (computeBoxArrayFill 1 [(((0, 0, 0) : Coord), ((1, 1, 1) : Coord))])
      (latDiv 1 ((2, 2, 2) : Coord))
      (latticeRegion 1 (((0, 0, 0) : Coord), ((1, 1, 1) : Coord))) 0 (0 : ℤ) = [] := by
  have h := ghost_map_boundary_faces_empty 1 ((2, 2, 2) : Coord)
    [(((0, 0, 0) : Coord), ((1, 1, 1) : Coord))] 0 (by decide) 0
    (by
      intro i j hi hj c h1 h2
      simp only [List.length_singleton] at hi hj
      omega)
    (by
      intro k hk a
      have hk0 : k = 0 := by simpa using hk
      subst hk0
      have hget : ([(((0, 0, 0) : Coord), ((1, 1, 1) : Coord))].get ⟨0, hk⟩)
          = ((((0, 0, 0) : Coord), ((1, 1, 1) : Coord))) := rfl
      rw [hget]
      fin_cases a <;> decide)
  exact ⟨h.1 (by decide), h.2.1 (by decide)⟩

/-- C8 amended (direction reversed): with pairwise disjoint, in-bounds
lattice regions, whenever box `cI` lists a real box `bI` as a low-face
neighbour on an axis, box `bI` lists `cI` as a high-face neighbour on
that axis, provided `bI`'s high neighbour layer is clear of the lattice
boundary (`hnotb`).  The original high-to-low direction fails because the
low-face slab uses exclusive upper corners (see the counterexample). -/
theorem ghost_map_low_to_high_symmetry (rez : ℕ) (gridSize : Coord)
    (idxs : List (Coord × Coord)) (bI cI : ℕ)
    (hb : bI < idxs.length) (hc : cI < idxs.length) (coo : Fin 3)
    (hdisj : LatticeDisjoint rez idxs)
    (_hbound : ∀ (k : ℕ) (hk : k < idxs.length) (a : Fin 3),
      ax (latticeRegion rez (idxs.get ⟨k, hk⟩)).2 a ≤ ax (latDiv rez gridSize) a - 1)
    (hmem : (bI : ℤ) ∈ ghostFaceLow (computeBoxArrayFill rez idxs)
      (latticeRegion rez (idxs.get ⟨cI, hc⟩)) coo (cI : ℤ))
    (hnotb : ax (latticeRegion rez (idxs.get ⟨bI, hb⟩)).2 coo + 2
      ≤ ax (latDiv rez gridSize) coo - 1) :
    (cI : ℤ) ∈ ghostFaceHigh (computeBoxArrayFill rez idxs) (latDiv rez gridSize)
      (latticeRegion rez (idxs.get ⟨bI, hb⟩)) coo (bI : ℤ) := by
  obtain ⟨hne, x, hx_slab, hx_val⟩ := mem_ghostFaceLow.mp hmem
  have hneq : bI ≠ cI := by
    intro h
    exact hne (by rw [h])
  -- the cell holding bI lies in bI's own lattice region
  have hxB : inRegionB (latticeRegion rez (idxs.get ⟨bI, hb⟩)) x = true := by
    rcases fillBoxes_mem rez 0 idxs (fun _ => -1) x ((bI : ℕ) : ℤ) hx_val with h3 | ⟨k, hk, hv, hin⟩
    · omega
    · have hkb : k = bI := by omega
      subst hkb
      exact hin
  have hxBax := inRegionB_iff_ax _ _ |>.mp hxB
  rw [mem_range3_ax] at hx_slab
  -- slab bounds componentwise
  have hslab_coo : max (ax (latticeRegion rez (idxs.get ⟨cI, hc⟩)).1 coo - 1) 0 ≤ ax x coo ∧
      ax x coo < ax (latticeRegion rez (idxs.get ⟨cI, hc⟩)).2 coo := by
    have h := hx_slab coo
    simp only [lowSlabBounds] at h
    rwa [ax_setAx_self] at h
  have hslab_other : ∀ a : Fin 3, a ≠ coo →
      ax (latticeRegion rez (idxs.get ⟨cI, hc⟩)).1 a ≤ ax x a ∧
      ax x a < ax (latticeRegion rez (idxs.get ⟨cI, hc⟩)).2 a := by
    intro a ha
    have h := hx_slab a
    simp only [lowSlabBounds] at h
    rwa [ax_setAx_other _ _ _ _ ha] at h
  -- x sits strictly below cI's region on the queried axis
  have hbelow : ax x coo < ax (latticeRegion rez (idxs.get ⟨cI, hc⟩)).1 coo := by
    by_contra hcon
    push_neg at hcon
    have hxC : inRegionB (latticeRegion rez (idxs.get ⟨cI, hc⟩)) x = true := by
      rw [inRegionB_iff_ax]
      intro a
      by_cases hd : a = coo
      · subst hd
        exact ⟨hcon, le_of_lt hslab_coo.2⟩
      · exact ⟨(hslab_other a hd).1, le_of_lt (hslab_other a hd).2⟩
    exact hneq (hdisj bI cI hb hc x hxB hxC)
  have hx_coo : ax x coo + 1 = ax (latticeRegion rez (idxs.get ⟨cI, hc⟩)).1 coo := by
    have h1 := hslab_coo.1
    omega
  -- bI's high corner meets cI's low corner on the queried axis
  have htop : ax (latticeRegion rez (idxs.get ⟨bI, hb⟩)).2 coo + 1
      = ax (latticeRegion rez (idxs.get ⟨cI, hc⟩)).1 coo := by
    have hxle : ax x coo ≤ ax (latticeRegion rez (idxs.get ⟨bI, hb⟩)).2 coo :=
      (hxBax coo).2
    by_contra hcon
    have hge : ax (latticeRegion rez (idxs.get ⟨cI, hc⟩)).1 coo
        ≤ ax (latticeRegion rez (idxs.get ⟨bI, hb⟩)).2 coo := by omega
    have hzB : inRegionB (latticeRegion rez (idxs.get ⟨bI, hb⟩))
        (setAx x coo (ax (latticeRegion rez (idxs.get ⟨cI, hc⟩)).1 coo)) = true := by
      rw [inRegionB_iff_ax]
      intro a
      by_cases hd : a = coo
      · subst hd
        rw [ax_setAx_self]
        exact ⟨by have := (hxBax a).1; omega, hge⟩
      · rw [ax_setAx_other _ _ _ _ hd]
        exact hxBax a
    have hzC : inRegionB (latticeRegion rez (idxs.get ⟨cI, hc⟩))
        (setAx x coo (ax (latticeRegion rez (idxs.get ⟨cI, hc⟩)).1 coo)) = true := by
      rw [inRegionB_iff_ax]
      intro a
      by_cases hd : a = coo
      · subst hd
        rw [ax_setAx_self]
        exact ⟨le_refl _, by have := hslab_coo.2; omega⟩
      · rw [ax_setAx_other _ _ _ _ hd]
        exact ⟨(hslab_other a hd).1, le_of_lt (hslab_other a hd).2⟩
    exact hneq (hdisj bI cI hb hc _ hzB hzC)
  -- the witness cell just above bI's high face
  have hyC : inRegionB (latticeRegion rez (idxs.get ⟨cI, hc⟩))
      (setAx x coo (ax (latticeRegion rez (idxs.get ⟨bI, hb⟩)).2 coo + 1)) = true := by
    rw [inRegionB_iff_ax]
    intro a
    by_cases hd : a = coo
    · subst hd
      rw [ax_setAx_self, htop]
      exact ⟨le_refl _, by have := hslab_coo.2; omega⟩
    · rw [ax_setAx_other _ _ _ _ hd]
      exact ⟨(hslab_other a hd).1, le_of_lt (hslab_other a hd).2⟩
  have hy_val : computeBoxArrayFill rez idxs
      (setAx x coo (ax (latticeRegion rez (idxs.get ⟨bI, hb⟩)).2 coo + 1)) = (cI : ℤ) := by
    have h1 := fillBoxes_own rez 0 idxs (fun _ => -1) _ cI hc hyC
      (fun j hj hjin => hdisj j cI hj hc _ hjin hyC)
    simpa using h1
  rw [mem_ghostFaceHigh]
  refine ⟨by omega, setAx x coo (ax (latticeRegion rez (idxs.get ⟨bI, hb⟩)).2 coo + 1),
    ?_, hy_val⟩
  rw [mem_range3_ax]
  intro a
  simp only [highSlabBounds]
  by_cases hd : a = coo
  · subst hd
    rw [ax_setAx_self, ax_setAx_self, ax_addOne]
    constructor
    · have h1 := (hxBax a).1
      have h2 := (hxBax a).2
      omega
    · omega
  · rw [ax_setAx_other _ _ _ _ hd, ax_setAx_other _ _ _ _ hd, ax_addOne]
    exact ⟨(hxBax a).1, by have := (hxBax a).2; omega⟩

/-- Counterexample to C8 as stated: with uniform box shapes, disjoint
in-bounds lattice regions and both boxes strictly inside the domain
(no domain-boundary exception applies), box 0 lists box 1 as a high-face
neighbour on axis 1, yet box 1's low-face list on axis 1 is empty — the
low-face slab's exclusive upper corners collapse it on axis 0, where both
boxes have lattice thickness one. -/
theorem ghost_map_symmetry_counterexample :
    minShapeEdge symCexIdxs = 2 ∧
    symCexIdxs.map (fun p => ((p.2.1 - p.1.1 + 1, p.2.2.1 - p.1.2.1 + 1,
      p.2.2.2 - p.1.2.2 + 1) : Coord))
      = [((2, 4, 4) : Coord), ((2, 4, 4) : Coord)] ∧
    (∀ c ∈ range3 ((0, 0, 0) : Coord) (latDiv 2 symCexGrid),
      ¬(inRegionB (latticeRegion 2 (((2, 4, 2) : Coord), ((3, 7, 5) : Coord))) c = true ∧
        inRegionB (latticeRegion 2 (((2, 8, 2) : Coord), ((3, 11, 5) : Coord))) c = true)) ∧
    (∀ a : Fin 3,
      1 ≤ ax (latticeRegion 2 (((2, 4, 2) : Coord), ((3, 7, 5) : Coord))).1 a ∧
      ax (latticeRegion 2 (((2, 4, 2) : Coord), ((3, 7, 5) : Coord))).2 a + 2
        ≤ ax (latDiv 2 symCexGrid) a ∧
      1 ≤ ax (latticeRegion 2 (((2, 8, 2) : Coord), ((3, 11, 5) : Coord))).1 a ∧
      ax (latticeRegion 2 (((2, 8, 2) : Coord), ((3, 11, 5) : Coord))).2 a + 2
        ≤ ax (latDiv 2 symCexGrid) a) ∧
    (1 : ℤ) ∈ ghostFaceHigh (computeBoxArrayFill 2 symCexIdxs) (latDiv 2 symCexGrid)
      (latticeRegion 2 (((2, 4, 2) : Coord), ((3, 7, 5) : Coord))) 1 (0 : ℤ) ∧
    ghostFaceLow (computeBoxArrayFill 2 symCexIdxs)
      (latticeRegion 2 (((2, 8, 2) : Coord), ((3, 11, 5) : Coord))) 1 (1 : ℤ) = [] := by
  decide

/-- Witness for the amended C8: two unit boxes stacked along axis 0 in a
`4×2×2` lattice; box 1 lists box 0 on its low face, so box 0 lists box 1
on its high face. -/
theorem ghost_map_low_to_high_symmetry_witness :
    (1 : ℤ) ∈ ghostFaceHigh
      (computeBoxArrayFill 1 [(((0, 0, 0) : Coord), ((0, 1, 1) : Coord)),
        (((1, 0, 0) : Coord), ((1, 1, 1) : Coord))])
      (latDiv 1 ((4, 2, 2) : Coord))
      (latticeRegion 1 (((0, 0, 0) : Coord), ((0, 1, 1) : Coord))) 0 (0 : ℤ) := by
  have hdisj : LatticeDisjoint 1 [(((0, 0, 0) : Coord), ((0, 1, 1) : Coord)),
      (((1, 0, 0) : Coord), ((1, 1, 1) : Coord))] := by
    intro i j hi hj c h1 h2
    have hi2 : i < 2 := by simpa using hi
    have hj2 : j < 2 := by simpa using hj
    obtain ⟨cx, cy, cz⟩ := c
    interval_cases i <;> interval_cases j <;> try rfl
    · exfalso
      have g1 : inRegionB (latticeRegion 1 (((0, 0, 0) : Coord), ((0, 1, 1) : Coord)))
          (cx, cy, cz) = true := h1
      have g2 : inRegionB (latticeRegion 1 (((1, 0, 0) : Coord), ((1, 1, 1) : Coord)))
          (cx, cy, cz) = true := h2
      simp only [latticeRegion, latDiv, inRegionB_iff] at g1 g2
      omega
    · exfalso
      have g1 : inRegionB (latticeRegion 1 (((1, 0, 0) : Coord), ((1, 1, 1) : Coord)))
          (cx, cy, cz) = true := h1
      have g2 : inRegionB (latticeRegion 1 (((0, 0, 0) : Coord), ((0, 1, 1) : Coord)))
          (cx, cy, cz) = true := h2
      simp only [latticeRegion, latDiv, inRegionB_iff] at g1 g2
      omega
  have h := ghost_map_low_to_high_symmetry 1 ((4, 2, 2) : Coord)
    [(((0, 0, 0) : Coord), ((0, 1, 1) : Coord)), (((1, 0, 0) : Coord), ((1, 1, 1) : Coord))]
    0 1 (by decide) (by decide) 0 hdisj
    (by
      intro k hk a
      have hlen : k < 2 := by simpa using hk
      interval_cases k
      · have hget : ([(((0, 0, 0) : Coord), ((0, 1, 1) : Coord)),
            (((1, 0, 0) : Coord), ((1, 1, 1) : Coord))].get ⟨0, hk⟩)
            = ((((0, 0, 0) : Coord), ((0, 1, 1) : Coord))) := rfl
        rw [hget]
        fin_cases a <;> decide
      · have hget : ([(((0, 0, 0) : Coord), ((0, 1, 1) : Coord)),
            (((1, 0, 0) : Coord), ((1, 1, 1) : Coord))].get ⟨1, hk⟩)
            = ((((1, 0, 0) : Coord), ((1, 1, 1) : Coord))) := rfl
        rw [hget]
        fin_cases a <;> decide)
    (by decide) (by decide)
  exact h

theorem exceptBind_err {α β : Type} (e : PyErr) (f : α → Except PyErr β) :
    ((Except.error e : Except PyErr α) >>= f) = .error e := rfl

/-- C10: the level-selection layer's explicit rejection is only for
integer keys strictly greater than `limit_level`; every negative key
down to `-(limit_level + 1)` is accepted and selects the level counting
backwards from the end of the materialized levels (key `-1` is level
`limit_level`). -/
theorem level_selector_accepts_negative_keys (cells : List LevelCells) (L key : ℤ)
    (hlen : (cells.length : ℤ) = L + 1) (hlow : -(L + 1) ≤ key) :
    (L < key → levelSelectorGetitem cells L key
      = .error (.valueError ("The maximum AMR level of the plotfile is "
          ++ toString L))) ∧
    (key ≤ L → ∃ lc, cells.get? (if key < 0 then key + L + 1 else key).toNat = some lc ∧
      levelSelectorGetitem cells L key = .ok ⟨lc.files, lc.offsets, lc.files.length⟩) := by
  constructor
  · intro h
    rw [levelSelectorGetitem, if_pos h]
  · intro h
    rw [levelSelectorGetitem, if_neg (not_lt.mpr h)]
    rw [pyIdx]
    have hjb : 0 ≤ (if key < 0 then key + (cells.length : ℤ) else key) ∧
        (if key < 0 then key + (cells.length : ℤ) else key) < (cells.length : ℤ) := by
      constructor <;> (split <;> omega)
    rw [dif_pos hjb]
    refine ⟨cells.get ⟨(if key < 0 then key + (cells.length : ℤ) else key).toNat, by omega⟩,
      ?_, rfl⟩
    have hidx : (if key < 0 then key + L + 1 else key)
        = (if key < 0 then key + (cells.length : ℤ) else key) := by
      split <;> omega
    rw [hidx]
    exact List.get?_eq_get _

/-- Witness for C10: two materialized levels, key `-1` selects level 1. -/
theorem level_selector_accepts_negative_keys_witness :
    levelSelectorGetitem
      [⟨[], ["a"], [0], none, none⟩, ⟨[], ["b"], [7], none, none⟩] 1 (-1)
      = .ok ⟨["b"], [7], 1⟩ := by
  have h := (level_selector_accepts_negative_keys
    [⟨[], ["a"], [0], none, none⟩, ⟨[], ["b"], [7], none, none⟩] 1 (-1)
    (by decide) (by decide)).2 (by decide)
  obtain ⟨lc, hget, hrun⟩ := h
  have hlc : lc = ⟨[], ["b"], [7], none, none⟩ := by
    have : ([⟨[], ["a"], [0], none, none⟩,
        (⟨[], ["b"], [7], none, none⟩ : LevelCells)].get? (((-1 : ℤ) + 1 + 1).toNat))
        = some (⟨[], ["b"], [7], none, none⟩ : LevelCells) := by decide
    rw [show (if (-1 : ℤ) < 0 then (-1 : ℤ) + 1 + 1 else (-1 : ℤ)) = (-1 : ℤ) + 1 + 1
      from by decide] at hget
    rw [this] at hget
    exact (Option.some_inj.mp hget).symm
  rw [hlc] at hrun
  exact hrun

/-- C9: a field-name list with a duplicate makes
`write_global_header_new_fields` raise before the header file is opened,
so the target file's contents are unchanged by the failed call. -/
theorem duplicate_field_names_rejected (c : Cooker) (names : List String)
    (hdup : ¬names.Nodup) :
    write_global_header_new_fields c names
      = .error (.valueError "Cannot write plotfile header with duplicate fields") ∧
    ∀ old, write_header_file_effect c names old = old := by
  have hlen : names.dedup.length ≠ names.length := by
    intro h
    apply hdup
    have hsub : names.dedup.Sublist names := List.dedup_sublist names
    have hde : names.dedup = names := hsub.eq_of_length h
    rw [← hde]
    exact List.nodup_dedup names
  have hsort : (npUniqueStr names).length = names.dedup.length :=
    (List.perm_insertionSort _ names.dedup).length_eq
  have hfire : write_global_header_new_fields c names
      = .error (.valueError "Cannot write plotfile header with duplicate fields") := by
    rw [write_global_header_new_fields]
    rw [if_pos (by omega)]
  refine ⟨hfire, fun old => ?_⟩
  rw [write_header_file_effect, hfire]

/-- Witness for C9 with the duplicate list `["T", "T"]`. -/
theorem duplicate_field_names_rejected_witness :
    write_global_header_new_fields
      ⟨[], [], 0, 2, 0, 0, [], [], [], [], [], [], [], 0, none, [], [], [], [], none, 0⟩
      ["T", "T"]
      = .error (.valueError "Cannot write plotfile header with duplicate fields") ∧
    write_header_file_effect
      ⟨[], [], 0, 2, 0, 0, [], [], [], [], [], [], [], 0, none, [], [], [], [], none, 0⟩
      ["T", "T"] [[Tok.s "old"]] = [[Tok.s "old"]] := by
  have h := duplicate_field_names_rejected
    ⟨[], [], 0, 2, 0, 0, [], [], [], [], [], [], [], 0, none, [], [], [], [], none, 0⟩
    ["T", "T"] (by decide)
  exact ⟨h.1, h.2 [[Tok.s "old"]]⟩

/-- C5: once the global metadata is parsed, an explicit `limit_level`
strictly above `max_level` makes construction fail with the usage error
immediately — the result is the same for every box reader and cell
reader, so no box geometry or cell-header data is consumed; an omitted
`limit_level` defaults to `max_level`, and `limit_level ≤ max_level` is
accepted. -/
theorem limit_level_checked_before_box_reads (disk : PlotfileDisk)
    (m : HeaderMeta) (rest : List Line)
    (hm : parseHeaderMeta disk.header = .ok (m, rest)) :
    (∀ (ll : ℤ), m.max_level < ll → ∀ (ho vm mm gh : Bool) boxReader cellReader,
      initCookerAux boxReader cellReader disk ⟨some ll, ho, vm, mm, gh⟩
        = .error (.valueError (limitMsg ll m.max_level))) ∧
    resolveLimit none m.max_level = .ok m.max_level ∧
    (∀ ll : ℤ, ll ≤ m.max_level → resolveLimit (some ll) m.max_level = .ok ll) := by
  refine ⟨?_, rfl, fun ll h => by rw [resolveLimit, if_pos h]⟩
  intro ll hll ho vm mm gh boxReader cellReader
  have hres : resolveLimit (some ll) m.max_level
      = .error (.valueError (limitMsg ll m.max_level)) := by
    rw [resolveLimit, if_neg (not_le.mpr hll)]
  rw [initCookerAux, hm, exceptBind_ok]
  show (resolveLimit (some ll) m.max_level >>= fun ll1 =>
    wrapValidate vm boxesMsg (boxReader m.ndims.toNat (ll1 + 1).toNat rest) >>= fun d =>
      _) = _
  rw [hres, exceptBind_err]

/-- Witness for C5: on `tinyDisk` (whose `max_level` is 0) the explicit
`limit_level = 5` fails with the usage error, independent of any box
data. -/
theorem limit_level_checked_before_box_reads_witness :
    initCooker tinyDisk ⟨some 5, false, false, false, false⟩
      = .error (.valueError (limitMsg 5 0)) := by
  have h := limit_level_checked_before_box_reads tinyDisk
    ⟨[Tok.s "HyperCLaw-V1.1"], 0, [], 2, 0, 0, [], [], [], [], [], [[]],
     [Tok.s "cartesian"]⟩ [] (by decide)
  exact h.1 5 (by decide) false false false false read_boxes
    (fun cellH pfile nf mm paths => readCellLevels cellH pfile nf mm paths)

theorem wrapValidate_ok {α : Type} (v : Bool) (mk : String → String) (a : α) :
    wrapValidate v mk (.ok a) = .ok a := rfl

theorem wrapValidate_err_true {α : Type} (mk : String → String) (e : PyErr) :
    wrapValidate (α := α) true mk (.error e) = .error (.tastesBad (mk (errText e))) := rfl

theorem wrapValidate_err_false {α : Type} (mk : String → String) (e : PyErr) :
    wrapValidate (α := α) false mk (.error e) = .error e := rfl

/-- C6: any exception raised while reading the box geometry or the cell
headers is, in validate mode, caught and re-raised as the distinguished
`TastesBadError` whose message carries the full original diagnostic
(`prefix ++ errText e` by construction of `boxesMsg`/`cellsMsg`); with
validate mode off the original exception propagates unmodified. -/
theorem validate_mode_wraps_reader_errors (disk : PlotfileDisk)
    (m : HeaderMeta) (rest : List Line) (llArg : Option ℤ) (ll : ℤ) (mm : Bool)
    (hm : parseHeaderMeta disk.header = .ok (m, rest))
    (hll : resolveLimit llArg m.max_level = .ok ll) :
    (∀ e : PyErr, read_boxes m.ndims.toNat (ll + 1).toNat rest = .error e →
      ∀ ho gh : Bool,
      initCooker disk ⟨llArg, ho, true, mm, gh⟩
        = .error (.tastesBad (boxesMsg (errText e))) ∧
      initCooker disk ⟨llArg, ho, false, mm, gh⟩ = .error e) ∧
    (∀ (levels : List LevelGeo) (step : Option Line) (rest2 : List Line) (e2 : PyErr),
      read_boxes m.ndims.toNat (ll + 1).toNat rest = .ok ((levels, step), rest2) →
      readCellLevels disk.cellH disk.pfile ((dictSize m.fieldNames : ℕ) : ℤ) mm
        (levels.map (fun g => g.cell_dir)) = .error e2 →
      ∀ gh : Bool,
      initCooker disk ⟨llArg, false, true, mm, gh⟩
        = .error (.tastesBad (cellsMsg (errText e2))) ∧
      initCooker disk ⟨llArg, false, false, mm, gh⟩ = .error e2) := by
  constructor
  · intro e hbox ho gh
    constructor
    · show initCookerAux _ _ _ _ = _
      rw [initCookerAux, hm, exceptBind_ok]
      show (resolveLimit llArg m.max_level >>= fun ll1 =>
        wrapValidate true boxesMsg (read_boxes m.ndims.toNat (ll1 + 1).toNat rest)
          >>= fun d => _) = _
      rw [hll, exceptBind_ok]
      show (wrapValidate true boxesMsg (read_boxes m.ndims.toNat (ll + 1).toNat rest)
          >>= fun d => _) = _
      rw [hbox, wrapValidate_err_true, exceptBind_err]
    · show initCookerAux _ _ _ _ = _
      rw [initCookerAux, hm, exceptBind_ok]
      show (resolveLimit llArg m.max_level >>= fun ll1 =>
        wrapValidate false boxesMsg (read_boxes m.ndims.toNat (ll1 + 1).toNat rest)
          >>= fun d => _) = _
      rw [hll, exceptBind_ok]
      show (wrapValidate false boxesMsg (read_boxes m.ndims.toNat (ll + 1).toNat rest)
          >>= fun d => _) = _
      rw [hbox, wrapValidate_err_false, exceptBind_err]
  · intro levels step rest2 e2 hbox hcells gh
    constructor
    · show initCookerAux _ _ _ _ = _
      rw [initCookerAux, hm, exceptBind_ok]
      show (resolveLimit llArg m.max_level >>= fun ll1 =>
        wrapValidate true boxesMsg (read_boxes m.ndims.toNat (ll1 + 1).toNat rest)
          >>= fun d => _) = _
      rw [hll, exceptBind_ok]
      show (wrapValidate true boxesMsg (read_boxes m.ndims.toNat (ll + 1).toNat rest)
          >>= fun d => _) = _
      rw [hbox, wrapValidate_ok, exceptBind_ok]
      show ((wrapValidate true cellsMsg (readCellLevels disk.cellH disk.pfile
          ((dictSize m.fieldNames : ℕ) : ℤ) mm (levels.map (fun g => g.cell_dir)))
        >>= fun cs => (Except.ok (some cs) : Except PyErr (Option (List LevelCells))))
          >>= fun cells => _) = _
      rw [hcells, wrapValidate_err_true, exceptBind_err, exceptBind_err]
    · show initCookerAux _ _ _ _ = _
      rw [initCookerAux, hm, exceptBind_ok]
      show (resolveLimit llArg m.max_level >>= fun ll1 =>
        wrapValidate false boxesMsg (read_boxes m.ndims.toNat (ll1 + 1).toNat rest)
          >>= fun d => _) = _
      rw [hll, exceptBind_ok]
      show (wrapValidate false boxesMsg (read_boxes m.ndims.toNat (ll + 1).toNat rest)
          >>= fun d => _) = _
      rw [hbox, wrapValidate_ok, exceptBind_ok]
      show ((wrapValidate false cellsMsg (readCellLevels disk.cellH disk.pfile
          ((dictSize m.fieldNames : ℕ) : ℤ) mm (levels.map (fun g => g.cell_dir)))
        >>= fun cs => (Except.ok (some cs) : Except PyErr (Option (List LevelCells))))
          >>= fun cells => _) = _
      rw [hcells, wrapValidate_err_false, exceptBind_err, exceptBind_err]

/-- Witness for C6: `tinyDisk` has an empty box section, so reading the
boxes fails at end of file; validate mode wraps that into
`TastesBadError` carrying the diagnostic, plain mode re-raises it. -/
theorem validate_mode_wraps_reader_errors_witness :
    initCooker tinyDisk ⟨none, false, true, false, false⟩
      = .error (.tastesBad (boxesMsg (errText .eofError))) ∧
    initCooker tinyDisk ⟨none, false, false, false, false⟩ = .error .eofError := by
  have h := validate_mode_wraps_reader_errors tinyDisk
    ⟨[Tok.s "HyperCLaw-V1.1"], 0, [], 2, 0, 0, [], [], [], [], [], [[]],
     [Tok.s "cartesian"]⟩ [] none 0 false (by decide) (by decide)
  exact h.1 .eofError (by decide) false false

/-! ### Round-trip lemmas: the writer's output re-parses to the model -/

theorem mapM_tokFloat_map_q (xs : List ℚ) : (xs.map Tok.q).mapM tokFloat = .ok xs := by
  induction xs with
  | nil => rfl
  | cons a t ih =>
    rw [List.map_cons, List.mapM_cons]
    show (tokFloat (Tok.q a) >>= fun b => (t.map Tok.q).mapM tokFloat
      >>= fun bs => pure (b :: bs)) = _
    rw [show tokFloat (Tok.q a) = .ok a from rfl, exceptBind_ok, ih, exceptBind_ok]
    rfl

theorem mapM_tokInt_map_i (xs : List ℤ) : (xs.map Tok.i).mapM tokInt = .ok xs := by
  induction xs with
  | nil => rfl
  | cons a t ih =>
    rw [List.map_cons, List.mapM_cons]
    show (tokInt (Tok.i a) >>= fun b => (t.map Tok.i).mapM tokInt
      >>= fun bs => pure (b :: bs)) = _
    rw [show tokInt (Tok.i a) = .ok a from rfl, exceptBind_ok, ih, exceptBind_ok]
    rfl

theorem lineFloats_map_q (xs : List ℚ) : lineFloats (xs.map Tok.q) = .ok xs :=
  mapM_tokFloat_map_q xs

theorem lineInts_map_i (xs : List ℤ) : lineInts (xs.map Tok.i) = .ok xs :=
  mapM_tokInt_map_i xs

theorem readFieldNames_map (names : List String) (rest : List Line) :
    readFieldNames names.length (names.map (fun f => [Tok.s f]) ++ rest)
      = .ok (names, rest) := by
  induction names with
  | nil => rfl
  | cons a t ih =>
    show (rdLine (([Tok.s a] : Line) :: (t.map (fun f => [Tok.s f]) ++ rest))
      >>= fun p => _) = _
    rw [show rdLine (([Tok.s a] : Line) :: (t.map (fun f => [Tok.s f]) ++ rest))
      = .ok ([Tok.s a], t.map (fun f => [Tok.s f]) ++ rest) from rfl, exceptBind_ok]
    show (lineName [Tok.s a] >>= fun nm => _) = _
    rw [show lineName [Tok.s a] = .ok a from rfl, exceptBind_ok]
    show (readFieldNames t.length (t.map (fun f => [Tok.s f]) ++ rest)
      >>= fun p => _) = _
    rw [ih, exceptBind_ok]

theorem readFloatLines_map (dxs : List (List ℚ)) (rest : List Line) :
    readFloatLines dxs.length ((dxs.map (fun d => d.map Tok.q)) ++ rest)
      = .ok (dxs, rest) := by
  induction dxs with
  | nil => rfl
  | cons a t ih =>
    show (rdLine ((a.map Tok.q) :: (t.map (fun d => d.map Tok.q) ++ rest))
      >>= fun p => _) = _
    rw [show rdLine ((a.map Tok.q) :: (t.map (fun d => d.map Tok.q) ++ rest))
      = .ok (a.map Tok.q, t.map (fun d => d.map Tok.q) ++ rest) from rfl, exceptBind_ok]
    show (lineFloats (a.map Tok.q) >>= fun fs => _) = _
    rw [lineFloats_map_q, exceptBind_ok]
    show (readFloatLines t.length (t.map (fun d => d.map Tok.q) ++ rest)
      >>= fun p => _) = _
    rw [ih, exceptBind_ok]

theorem every3From1_triples (gss : List (List ℤ)) (nsL nsR : String) :
    every3From1 ((gss.map (fun gs =>
        ([Tok.s nsL, Tok.tup (gs.map (· - 1)), Tok.s nsR] : List Tok))).flatten)
      = gss.map (fun gs => Tok.tup (gs.map (· - 1))) := by
  induction gss with
  | nil => rfl
  | cons g t ih =>
    rw [List.map_cons, List.flatten_cons]
    show every3From1 (Tok.s nsL :: Tok.tup (g.map (· - 1)) :: Tok.s nsR :: _) = _
    rw [every3From1]
    simp only [List.append_eq, List.nil_append]
    rw [ih]
    rfl

theorem parseGridLine_roundtrip (gss : List (List ℤ)) (nsL nsR : String) :
    parseGridLine ((gss.map (fun gs =>
        ([Tok.s nsL, Tok.tup (gs.map (· - 1)), Tok.s nsR] : List Tok))).flatten)
      = .ok gss := by
  rw [parseGridLine, every3From1_triples]
  induction gss with
  | nil => rfl
  | cons g t ih =>
    rw [List.map_cons, List.mapM_cons]
    show ((Except.ok ((g.map (· - 1)).map (· + 1)) : Except PyErr (List ℤ))
      >>= fun b => (t.map (fun gs => Tok.tup (gs.map (· - 1)))).mapM _
        >>= fun bs => pure (b :: bs)) = _
    rw [exceptBind_ok, ih, exceptBind_ok]
    have hg : (g.map (· - 1)).map (· + 1) = g := by
      rw [List.map_map]
      have h1 : ∀ z ∈ g, ((· + 1) ∘ (· - 1)) z = id z := by
        intro z _
        simp only [Function.comp, id]
        omega
      rw [List.map_congr_left h1, List.map_id]
    rw [hg]
    rfl

/-- The global-header portion the writer emits re-parses to exactly the
serialized values, leaving the box section untouched. -/
theorem parseHeaderMeta_roundtrip (version : Line) (names : List String) (ndims : ℤ)
    (time : ℚ) (L : ℤ) (geoL geoH : List ℚ) (facs : List ℤ) (gss : List (List ℤ))
    (steps : List ℤ) (dxs : List (List ℚ)) (sys : Line) (nsL nsR : String)
    (rest : List Line) (hdx : (L + 1).toNat = dxs.length) :
    parseHeaderMeta
      (version :: ([Tok.i (names.length : ℤ)] : Line)
        :: (names.map (fun f => [Tok.s f])
          ++ (([Tok.i ndims] : Line) :: ([Tok.q time] : Line) :: ([Tok.i L] : Line)
            :: (geoL.map Tok.q) :: (geoH.map Tok.q) :: (facs.map Tok.i)
            :: ((gss.map (fun gs =>
                ([Tok.s nsL, Tok.tup (gs.map (· - 1)), Tok.s nsR] : List Tok))).flatten)
            :: (steps.map Tok.i)
            :: ((dxs.map (fun d => d.map Tok.q)) ++ (sys :: ([Tok.i 0] : Line) :: rest)))))
      = .ok (⟨version, (names.length : ℤ), names, ndims, time, L, geoL, geoH, facs,
              gss, steps, dxs, sys⟩, rest) := by
  rw [parseHeaderMeta]
  show (rdLine _ >>= fun p => _) = _
  rw [show ∀ (a : Line) (x : List Line), rdLine (a :: x) = .ok (a, x) from fun a x => rfl,
    exceptBind_ok]
  show (rdLine _ >>= fun p => _) = _
  rw [show ∀ (a : Line) (x : List Line), rdLine (a :: x) = .ok (a, x) from fun a x => rfl,
    exceptBind_ok]
  show (lineInt [Tok.i (names.length : ℤ)] >>= fun nvars => _) = _
  rw [show lineInt [Tok.i (names.length : ℤ)] = .ok (names.length : ℤ) from rfl,
    exceptBind_ok]
  show (readFieldNames (names.length : ℤ).toNat _ >>= fun p => _) = _
  rw [Int.toNat_natCast, readFieldNames_map, exceptBind_ok]
  show (rdLine _ >>= fun p => _) = _
  rw [show ∀ (a : Line) (x : List Line), rdLine (a :: x) = .ok (a, x) from fun a x => rfl,
    exceptBind_ok]
  show (lineInt [Tok.i ndims] >>= fun v => _) = _
  rw [show lineInt [Tok.i ndims] = .ok ndims from rfl, exceptBind_ok]
  show (rdLine _ >>= fun p => _) = _
  rw [show ∀ (a : Line) (x : List Line), rdLine (a :: x) = .ok (a, x) from fun a x => rfl,
    exceptBind_ok]
  show (lineFloat [Tok.q time] >>= fun v => _) = _
  rw [show lineFloat [Tok.q time] = .ok time from rfl, exceptBind_ok]
  show (rdLine _ >>= fun p => _) = _
  rw [show ∀ (a : Line) (x : List Line), rdLine (a :: x) = .ok (a, x) from fun a x => rfl,
    exceptBind_ok]
  show (lineInt [Tok.i L] >>= fun v => _) = _
  rw [show lineInt [Tok.i L] = .ok L from rfl, exceptBind_ok]
  show (rdLine _ >>= fun p => _) = _
  rw [show ∀ (a : Line) (x : List Line), rdLine (a :: x) = .ok (a, x) from fun a x => rfl,
    exceptBind_ok]
  show (lineFloats (geoL.map Tok.q) >>= fun v => _) = _
  rw [lineFloats_map_q, exceptBind_ok]
  show (rdLine _ >>= fun p => _) = _
  rw [show ∀ (a : Line) (x : List Line), rdLine (a :: x) = .ok (a, x) from fun a x => rfl,
    exceptBind_ok]
  show (lineFloats (geoH.map Tok.q) >>= fun v => _) = _
  rw [lineFloats_map_q, exceptBind_ok]
  show (rdLine _ >>= fun p => _) = _
  rw [show ∀ (a : Line) (x : List Line), rdLine (a :: x) = .ok (a, x) from fun a x => rfl,
    exceptBind_ok]
  show (lineInts (facs.map Tok.i) >>= fun v => _) = _
  rw [lineInts_map_i, exceptBind_ok]
  show (rdLine _ >>= fun p => _) = _
  rw [show ∀ (a : Line) (x : List Line), rdLine (a :: x) = .ok (a, x) from fun a x => rfl,
    exceptBind_ok]
  show (parseGridLine _ >>= fun v => _) = _
  rw [parseGridLine_roundtrip, exceptBind_ok]
  show (rdLine _ >>= fun p => _) = _
  rw [show ∀ (a : Line) (x : List Line), rdLine (a :: x) = .ok (a, x) from fun a x => rfl,
    exceptBind_ok]
  show (lineInts (steps.map Tok.i) >>= fun v => _) = _
  rw [lineInts_map_i, exceptBind_ok]
  show (readFloatLines (L + 1).toNat _ >>= fun p => _) = _
  rw [hdx, readFloatLines_map, exceptBind_ok]
  show (rdLine _ >>= fun p => _) = _
  rw [show ∀ (a : Line) (x : List Line), rdLine (a :: x) = .ok (a, x) from fun a x => rfl,
    exceptBind_ok]
  show (rdLine _ >>= fun p => _) = _
  rw [show ∀ (a : Line) (x : List Line), rdLine (a :: x) = .ok (a, x) from fun a x => rfl,
    exceptBind_ok]
  show (lineInt [Tok.i 0] >>= fun v => _) = _
  rw [show lineInt [Tok.i 0] = .ok 0 from rfl, exceptBind_ok]
  rw [if_pos rfl]

theorem readBoxDims_map (n : ℕ) (box : List (ℚ × ℚ)) (rest : List Line)
    (hn : n = box.length) :
    readBoxDims n ((box.map (fun p => ([Tok.q p.1, Tok.q p.2] : Line))) ++ rest)
      = .ok ((centersOf box, box), rest) := by
  subst hn
  induction box with
  | nil => rfl
  | cons p t ih =>
    rw [List.map_cons, List.cons_append]
    show (rdLine _ >>= fun x => _) = _
    rw [show ∀ (a : Line) (x : List Line), rdLine (a :: x) = .ok (a, x) from fun a x => rfl,
      exceptBind_ok]
    show (lineFloatPair [Tok.q p.1, Tok.q p.2] >>= fun lohi => _) = _
    rw [show lineFloatPair [Tok.q p.1, Tok.q p.2] = .ok (p.1, p.2) from rfl, exceptBind_ok]
    show (readBoxDims t.length (t.map (fun p => ([Tok.q p.1, Tok.q p.2] : Line)) ++ rest)
      >>= fun x => _) = _
    rw [ih, exceptBind_ok]
    show Except.ok ((_ :: centersOf t, (p.1, p.2) :: t), rest) = _
    rw [Prod.mk.eta]
    rfl

theorem readLevelBoxes_map (ndims : ℕ) (bxs : List (List (ℚ × ℚ))) (rest : List Line)
    (h : ∀ b ∈ bxs, b.length = ndims) :
    readLevelBoxes ndims bxs.length
        ((bxs.map (fun box => box.map (fun p => ([Tok.q p.1, Tok.q p.2] : Line)))).flatten
          ++ rest)
      = .ok ((bxs.map centersOf, bxs), rest) := by
  induction bxs with
  | nil => rfl
  | cons b t ih =>
    rw [List.map_cons, List.flatten_cons, List.append_assoc]
    show (readBoxDims ndims _ >>= fun x => _) = _
    rw [readBoxDims_map ndims b _ (h b (by simp)).symm, exceptBind_ok]
    show (readLevelBoxes ndims t.length _ >>= fun x => _) = _
    rw [ih (fun b2 hb2 => h b2 (by simp [hb2])), exceptBind_ok]
    rfl

theorem readOneLevel_written (ndims : ℕ) (time : ℚ) (bxs : List (List (ℚ × ℚ)))
    (stepn : ℤ) (lv : ℕ) (rest : List Line)
    (h : ∀ b ∈ bxs, b.length = ndims) :
    readOneLevel ndims lv (writtenLevel time bxs stepn lv ++ rest)
      = .ok ((⟨(bxs.length : ℤ), bxs.map centersOf, bxs, "Level_" ++ toString lv⟩,
              if (lv : ℤ) = 0 then some [Tok.i stepn] else none), rest) := by
  rw [writtenLevel, readOneLevel, List.cons_append, List.cons_append]
  show (rdLine _ >>= fun x => _) = _
  rw [show ∀ (a : Line) (x : List Line), rdLine (a :: x) = .ok (a, x) from fun a x => rfl,
    exceptBind_ok]
  show (line3 [Tok.i (lv : ℤ), Tok.i (bxs.length : ℤ), Tok.q time] >>= fun p => _) = _
  rw [show line3 [Tok.i (lv : ℤ), Tok.i (bxs.length : ℤ), Tok.q time]
    = .ok ((lv : ℤ), (bxs.length : ℤ)) from rfl, exceptBind_ok]
  show (rdLine _ >>= fun x => _) = _
  rw [show ∀ (a : Line) (x : List Line), rdLine (a :: x) = .ok (a, x) from fun a x => rfl,
    exceptBind_ok]
  show (if ((lv : ℤ) = (lv : ℤ)) then
      (readLevelBoxes ndims ((bxs.length : ℤ)).toNat
          ((bxs.map (fun box => box.map (fun p => ([Tok.q p.1, Tok.q p.2] : Line)))).flatten
            ++ [[Tok.pathTok ("Level_" ++ toString lv) "Cell"]] ++ rest)
        >>= fun d =>
          rdLine d.2 >>= fun pl =>
            pathHead pl.1 >>= fun cell_dir =>
              Except.ok (((⟨(bxs.length : ℤ), d.1.1, d.1.2, cell_dir⟩ : LevelGeo),
                if (lv : ℤ) = 0 then some ([Tok.i stepn] : Line) else none), pl.2))
    else Except.error PyErr.assertionError) = _
  rw [if_pos (rfl : (lv : ℤ) = (lv : ℤ))]
  show (readLevelBoxes ndims ((bxs.length : ℤ)).toNat _ >>= fun x => _) = _
  rw [Int.toNat_natCast, List.append_assoc, readLevelBoxes_map ndims bxs _ h, exceptBind_ok]
  show (rdLine _ >>= fun x => _) = _
  rw [show rdLine ([[Tok.pathTok ("Level_" ++ toString lv) "Cell"]] ++ rest)
    = .ok ([Tok.pathTok ("Level_" ++ toString lv) "Cell"], rest) from rfl, exceptBind_ok]
  show (pathHead [Tok.pathTok ("Level_" ++ toString lv) "Cell"] >>= fun d => _) = _
  rw [show pathHead [Tok.pathTok ("Level_" ++ toString lv) "Cell"]
    = .ok ("Level_" ++ toString lv) from rfl, exceptBind_ok]

theorem readBoxLevels_written (ndims : ℕ) (time : ℚ)
    (pairs : List (List (List (ℚ × ℚ)) × ℤ)) (lv : ℕ) (rest : List Line)
    (h : ∀ p ∈ pairs, ∀ b ∈ p.1, b.length = ndims) :
    readBoxLevels ndims lv pairs.length (writtenPairs time lv pairs ++ rest)
      = .ok ((geosOf lv pairs, stepOf lv pairs), rest) := by
  induction pairs generalizing lv with
  | nil => rfl
  | cons pr t ih =>
    obtain ⟨bxs, stepn⟩ := pr
    rw [List.length_cons, writtenPairs, List.append_assoc, readBoxLevels]
    show (readOneLevel ndims lv _ >>= fun x => _) = _
    rw [readOneLevel_written ndims time bxs stepn lv _ (h (bxs, stepn) (by simp)),
      exceptBind_ok]
    show (readBoxLevels ndims (lv + 1) t.length _ >>= fun x => _) = _
    rw [ih (lv + 1) (fun p hp => h p (by simp [hp])), exceptBind_ok]
    rfl

theorem pyGet_eq_getD {α : Type} (l : List α) (i : ℕ) (d : α) (hd : i < l.length) :
    pyGet l i = .ok (l.getD i d) := by
  rw [pyGet, dif_pos hd, List.getD_eq_getElem l d hd]
  rfl

theorem pyIdx_natCast {α : Type} (l : List α) (i : ℕ) (d : α) (hd : i < l.length) :
    pyIdx l (i : ℤ) = .ok (l.getD i d) := by
  have h1 : ¬((i : ℤ) < 0) := not_lt.mpr (Int.natCast_nonneg i)
  have h2 : (0 : ℤ) ≤ (i : ℤ) ∧ (i : ℤ) < (l.length : ℤ) :=
    ⟨Int.natCast_nonneg i, by exact_mod_cast hd⟩
  rw [pyIdx]
  simp only [h1, if_false, dif_pos h2, List.get_eq_getElem, Int.toNat_natCast,
    List.getD_eq_getElem l d hd]

theorem mapM_ok_of_forall {α β : Type} (g : α → Except PyErr β) (f : α → β) :
    ∀ (l : List α), (∀ a ∈ l, g a = .ok (f a)) → l.mapM g = .ok (l.map f)
  | [], _ => rfl
  | a :: t, h => by
    rw [List.mapM_cons, h a (by simp), exceptBind_ok,
      mapM_ok_of_forall g f t (fun b hb => h b (by simp [hb])), exceptBind_ok]
    rfl

theorem getD_take_of_lt {α : Type} (l : List α) (n i : ℕ) (d : α) (hi : i < n) :
    (l.take n).getD i d = l.getD i d := by
  rw [List.getD_eq_getElem?_getD, List.getD_eq_getElem?_getD, List.getElem?_take,
    if_pos hi]

theorem map_range_getD {α β : Type} (l : List α) (d : α) (N : ℕ) (h : α → β)
    (hN : N ≤ l.length) :
    (List.range N).map (fun i => h (l.getD i d)) = (l.take N).map h := by
  apply List.ext_getElem
  · simp [hN]
  · intro i h1 h2
    have hiN : i < N := by simpa using h1
    have hil : i < l.length := lt_of_lt_of_le hiN hN
    have hit : i < (l.take N).length := by simp [hN, hiN]
    rw [List.getElem_map, List.getElem_map, List.getElem_range,
      List.getD_eq_getElem l d hil]
    congr 1
    rw [List.getElem_take]

theorem npUniqueStr_length_of_nodup (l : List String) (h : l.Nodup) :
    (npUniqueStr l).length = l.length := by
  rw [npUniqueStr, (List.perm_insertionSort (fun a b => a ≤ b) l.dedup).length_eq,
    List.dedup_eq_self.mpr h]

theorem flatten_range_written (time : ℚ) :
    ∀ (bl : List (List (List (ℚ × ℚ)))) (sl : List ℤ) (lv0 : ℕ),
      bl.length = sl.length →
      ((List.range' lv0 bl.length).map
          (fun lv => writtenLevel time (bl.getD (lv - lv0) []) (sl.getD (lv - lv0) 0) lv)).flatten
        = writtenPairs time lv0 (bl.zip sl)
  | [], sl, lv0, h => rfl
  | b :: bt, sl, lv0, h => by
    cases sl with
    | nil => simp at h
    | cons s st =>
      rw [List.length_cons]
      show (writtenLevel time ((b :: bt).getD (lv0 - lv0) []) ((s :: st).getD (lv0 - lv0) 0) lv0)
        ++ ((List.range' (lv0 + 1) bt.length).map
          (fun lv => writtenLevel time ((b :: bt).getD (lv - lv0) [])
            ((s :: st).getD (lv - lv0) 0) lv)).flatten = _
      have hh : writtenLevel time ((b :: bt).getD (lv0 - lv0) [])
          ((s :: st).getD (lv0 - lv0) 0) lv0 = writtenLevel time b s lv0 := by
        simp
      rw [hh]
      have ht : (List.range' (lv0 + 1) bt.length).map
            (fun lv => writtenLevel time ((b :: bt).getD (lv - lv0) [])
              ((s :: st).getD (lv - lv0) 0) lv)
          = (List.range' (lv0 + 1) bt.length).map
            (fun lv => writtenLevel time (bt.getD (lv - (lv0 + 1)) [])
              (st.getD (lv - (lv0 + 1)) 0) lv) := by
        apply List.map_congr_left
        intro lv hlv
        have h1 : lv0 + 1 ≤ lv := (List.mem_range'_1.mp hlv).1
        have h2 : lv - lv0 = (lv - (lv0 + 1)) + 1 := by omega
        rw [h2]
        rfl
      rw [ht, flatten_range_written time bt st (lv0 + 1) (by simpa using h)]
      rfl

theorem geosOf_map_boxes :
    ∀ (lv0 : ℕ) (ps : List (List (List (ℚ × ℚ)) × ℤ)),
      (geosOf lv0 ps).map (fun g => g.boxes) = ps.map Prod.fst
  | _, [] => rfl
  | lv0, (bxs, stepn) :: t => by
    rw [geosOf, List.map_cons, List.map_cons, geosOf_map_boxes (lv0 + 1) t]

theorem geosOf_map_cell_dir :
    ∀ (lv0 : ℕ) (ps : List (List (List (ℚ × ℚ)) × ℤ)),
      (geosOf lv0 ps).map (fun g => g.cell_dir)
        = (List.range' lv0 ps.length).map (fun lv => "Level_" ++ toString lv)
  | _, [] => rfl
  | lv0, (bxs, stepn) :: t => by
    rw [geosOf, List.map_cons, List.length_cons]
    show _ :: _ = (lv0 :: List.range' (lv0 + 1) t.length).map
      (fun lv => "Level_" ++ toString lv)
    rw [List.map_cons, geosOf_map_cell_dir (lv0 + 1) t]

theorem rclose_self (a : ℚ) : rclose a a = true := by
  rw [rclose, decide_eq_true_eq]
  rw [sub_self, abs_zero]
  positivity

theorem zip_self_all {α : Type} (f : α × α → Bool) :
    ∀ (l : List α), (∀ a ∈ l, f (a, a) = true) → (l.zip l).all f = true
  | [], _ => rfl
  | a :: t, h => by
    rw [List.zip_cons_cons, List.all_cons, h a (by simp),
      zip_self_all f t (fun b hb => h b (by simp [hb]))]
    rfl

theorem allcloseBoxes_self (x : List (List (ℚ × ℚ))) : allcloseBoxes x x = true := by
  rw [allcloseBoxes]
  have h1 : (x.zip x).all (fun p =>
      decide (p.1.length = p.2.length) &&
        (p.1.zip p.2).all (fun q => rclose q.1.1 q.2.1 && rclose q.1.2 q.2.2)) = true := by
    apply zip_self_all
    intro b _
    have h2 : (b.zip b).all (fun q => rclose q.1.1 q.2.1 && rclose q.1.2 q.2.2) = true := by
      apply zip_self_all
      intro q _
      rw [rclose_self, rclose_self]
      rfl
    rw [h2]
    simp
  rw [h1]
  simp

theorem allcloseIdx_self (x : List (List ℤ × List ℤ)) : allcloseIdx x x = true := by
  rw [allcloseIdx]
  have h1 : (x.zip x).all (fun p =>
      decide (p.1.1.length = p.2.1.length) && decide (p.1.2.length = p.2.2.length) &&
        ((p.1.1.zip p.2.1).all (fun q => rclose (q.1 : ℚ) (q.2 : ℚ))) &&
        ((p.1.2.zip p.2.2).all (fun q => rclose (q.1 : ℚ) (q.2 : ℚ)))) = true := by
    apply zip_self_all
    intro b _
    have h2 : (b.1.zip b.1).all (fun q => rclose (q.1 : ℚ) (q.2 : ℚ)) = true :=
      zip_self_all _ b.1 (fun z _ => rclose_self (z : ℚ))
    have h3 : (b.2.zip b.2).all (fun q => rclose (q.1 : ℚ) (q.2 : ℚ)) = true :=
      zip_self_all _ b.2 (fun z _ => rclose_self (z : ℚ))
    rw [h2, h3]
    simp
  rw [h1]
  simp

theorem pfEqBoxes_ok_true (a b : Cooker) :
    ∀ (ls : List ℕ),
      (∀ lv ∈ ls, ∃ x, pyIdx a.boxes (lv : ℤ) = .ok x ∧ pyIdx b.boxes (lv : ℤ) = .ok x) →
      pfEqBoxes a b ls = .ok true
  | [], _ => rfl
  | lv :: t, h => by
    obtain ⟨x, h1, h2⟩ := h lv (by simp)
    rw [pfEqBoxes]
    show (pyIdx a.boxes (lv : ℤ) >>= fun xa => _) = _
    rw [h1, exceptBind_ok]
    show (pyIdx b.boxes (lv : ℤ) >>= fun xb => _) = _
    rw [h2, exceptBind_ok, if_pos (allcloseBoxes_self x)]
    exact pfEqBoxes_ok_true a b t (fun lv2 hlv2 => h lv2 (by simp [hlv2]))

theorem pfEqCells_ok_true (a b : Cooker) (ca cb : List LevelCells)
    (ha : a.cells = some ca) (hb : b.cells = some cb) :
    ∀ (ls : List ℕ),
      (∀ lv ∈ ls, ∃ xa xb, pyIdx ca (lv : ℤ) = .ok xa ∧ pyIdx cb (lv : ℤ) = .ok xb ∧
        xa.indexes = xb.indexes) →
      pfEqCells a b ls = .ok true
  | [], _ => rfl
  | lv :: t, h => by
    obtain ⟨xa, xb, h1, h2, h3⟩ := h lv (by simp)
    rw [pfEqCells, ha, hb]
    show ((Option.elim (some ca) (Except.error PyErr.attributeError) Except.ok
        : Except PyErr (List LevelCells)) >>= fun va => _) = _
    rw [show (Option.elim (some ca) (Except.error PyErr.attributeError) Except.ok
        : Except PyErr (List LevelCells)) = .ok ca from rfl, exceptBind_ok]
    show ((Option.elim (some cb) (Except.error PyErr.attributeError) Except.ok
        : Except PyErr (List LevelCells)) >>= fun vb => _) = _
    rw [show (Option.elim (some cb) (Except.error PyErr.attributeError) Except.ok
        : Except PyErr (List LevelCells)) = .ok cb from rfl, exceptBind_ok]
    show (pyIdx ca (lv : ℤ) >>= fun xa => _) = _
    rw [h1, exceptBind_ok]
    show (pyIdx cb (lv : ℤ) >>= fun xb => _) = _
    rw [h2, exceptBind_ok, h3, if_pos (allcloseIdx_self xb.indexes)]
    exact pfEqCells_ok_true a b ca cb ha hb t (fun lv2 hlv2 => h lv2 (by simp [hlv2]))

theorem boxLines_eval (box : List (ℚ × ℚ)) (n : ℕ) (hn : box.length = n) :
    (List.range n).mapM (fun d => pyGet box d >>= fun p =>
        .ok ([Tok.q p.1, Tok.q p.2] : Line))
      = .ok (box.map (fun p => ([Tok.q p.1, Tok.q p.2] : Line))) := by
  subst hn
  have h1 : (List.range box.length).mapM (fun d => pyGet box d >>= fun p =>
        .ok ([Tok.q p.1, Tok.q p.2] : Line))
      = .ok ((List.range box.length).map (fun d =>
          ([Tok.q (box.getD d (0, 0)).1, Tok.q (box.getD d (0, 0)).2] : Line))) := by
    apply mapM_ok_of_forall
    intro d hd
    have hdl : d < box.length := List.mem_range.mp hd
    rw [pyGet_eq_getD box d (0, 0) hdl, exceptBind_ok]
  rw [h1]
  have h2 := map_range_getD box (0, 0) box.length
    (fun p => ([Tok.q p.1, Tok.q p.2] : Line)) le_rfl
  rw [h2, List.take_length]

theorem writer_eval (c : Cooker) (field_names : List String) (N : ℕ) (nsL nsR : String)
    (hN : N = (c.limit_level + 1).toNat)
    (hnodup : field_names.Nodup)
    (hnd : (c.ndims = 3 ∧ nsL = "((0,0,0)" ∧ nsR = "(0,0,0))")
         ∨ (c.ndims = 2 ∧ nsL = "((0,0)" ∧ nsR = "(0,0))"))
    (hgrid : N ≤ c.grid_sizes.length)
    (hdxl : N ≤ c.dx.length)
    (hsteps : N ≤ c.step_numbers.length)
    (hboxlen : N ≤ c.boxes.length)
    (hboxdim : ∀ bxs ∈ c.boxes, ∀ b ∈ bxs, b.length = c.ndims.toNat) :
    write_global_header_new_fields c field_names
      = .ok (c.version :: ([Tok.i (field_names.length : ℤ)] : Line)
          :: (field_names.map (fun f => ([Tok.s f] : Line))
            ++ (([Tok.i c.ndims] : Line) :: ([Tok.q c.time] : Line)
              :: ([Tok.i c.limit_level] : Line)
              :: (c.geo_low.map Tok.q) :: (c.geo_high.map Tok.q)
              :: ((c.factors.take N).map Tok.i)
              :: (((c.grid_sizes.take N).map (fun gs =>
                  ([Tok.s nsL, Tok.tup (gs.map (· - 1)), Tok.s nsR] : List Tok))).flatten)
              :: ((c.step_numbers.take N).map Tok.i)
              :: (((c.dx.take N).map (fun d => d.map Tok.q))
                ++ (c.sys_coord :: ([Tok.i 0] : Line)
                  :: writtenPairs c.time 0
                      ((c.boxes.take N).zip (c.step_numbers.take N))))))) := by
  have hdup : ¬(field_names.length ≠ (npUniqueStr field_names).length) :=
    not_not_intro (npUniqueStr_length_of_nodup field_names hnodup).symm
  rw [write_global_header_new_fields]
  show (if field_names.length ≠ (npUniqueStr field_names).length then _ else _) = _
  rw [if_neg hdup, ← hN]
  have htup : (List.range N).mapM (fun lv => pyGet c.grid_sizes lv >>= fun gs =>
        if c.ndims = 3 then
          .ok ([Tok.s "((0,0,0)", Tok.tup (gs.map (· - 1)), Tok.s "(0,0,0))"] : List Tok)
        else if c.ndims = 2 then
          .ok ([Tok.s "((0,0)", Tok.tup (gs.map (· - 1)), Tok.s "(0,0))"] : List Tok)
        else .error .unboundLocal)
      = .ok ((List.range N).map (fun lv =>
          ([Tok.s nsL, Tok.tup ((c.grid_sizes.getD lv []).map (· - 1)),
            Tok.s nsR] : List Tok))) := by
    apply mapM_ok_of_forall
    intro lv hlv
    have hlt : lv < N := List.mem_range.mp hlv
    rw [pyGet_eq_getD c.grid_sizes lv [] (lt_of_lt_of_le hlt hgrid), exceptBind_ok]
    rcases hnd with ⟨h3, hL, hR⟩ | ⟨h2, hL, hR⟩
    · rw [if_pos h3, hL, hR]
    · have h32 : ¬(c.ndims = 3) := by rw [h2]; decide
      rw [if_neg h32, if_pos h2, hL, hR]
  show ((List.range N).mapM _ >>= fun tuples => _) = _
  rw [htup, exceptBind_ok]
  have hdxm : (List.range N).mapM (fun lv => pyGet c.dx lv >>= fun d =>
        .ok (d.map Tok.q : Line))
      = .ok ((List.range N).map (fun lv => ((c.dx.getD lv []).map Tok.q : Line))) := by
    apply mapM_ok_of_forall
    intro lv hlv
    have hlt : lv < N := List.mem_range.mp hlv
    rw [pyGet_eq_getD c.dx lv [] (lt_of_lt_of_le hlt hdxl), exceptBind_ok]
  show ((List.range N).mapM _ >>= fun dxLines => _) = _
  rw [hdxm, exceptBind_ok]
  have hbox : (List.range N).mapM (fun lv => pyGet c.boxes lv >>= fun bxs =>
        pyGet c.step_numbers lv >>= fun stepn =>
          (bxs.mapM (fun box =>
            (List.range c.ndims.toNat).mapM (fun d => pyGet box d >>= fun p =>
              .ok ([Tok.q p.1, Tok.q p.2] : Line)))) >>= fun boxLines =>
          .ok ((([Tok.i (lv : ℤ), Tok.i (bxs.length : ℤ), Tok.q c.time] : Line)
            :: ([Tok.i stepn] : Line)
            :: boxLines.flatten) ++ [[Tok.pathTok ("Level_" ++ toString lv) "Cell"]]))
      = .ok ((List.range N).map (fun lv =>
          writtenLevel c.time (c.boxes.getD lv []) (c.step_numbers.getD lv 0) lv)) := by
    apply mapM_ok_of_forall
    intro lv hlv
    have hlt : lv < N := List.mem_range.mp hlv
    have hlb : lv < c.boxes.length := lt_of_lt_of_le hlt hboxlen
    rw [pyGet_eq_getD c.boxes lv [] hlb, exceptBind_ok,
      pyGet_eq_getD c.step_numbers lv 0 (lt_of_lt_of_le hlt hsteps), exceptBind_ok]
    have hmem : c.boxes.getD lv [] ∈ c.boxes := by
      rw [List.getD_eq_getElem c.boxes [] hlb]
      exact List.getElem_mem hlb
    have hinner : (c.boxes.getD lv []).mapM (fun box =>
          (List.range c.ndims.toNat).mapM (fun d => pyGet box d >>= fun p =>
            .ok ([Tok.q p.1, Tok.q p.2] : Line)))
        = .ok ((c.boxes.getD lv []).map (fun box =>
            box.map (fun p => ([Tok.q p.1, Tok.q p.2] : Line)))) := by
      apply mapM_ok_of_forall
      intro box hbox2
      exact boxLines_eval box c.ndims.toNat (hboxdim _ hmem box hbox2)
    rw [hinner, exceptBind_ok, writtenLevel, List.cons_append, List.cons_append]
  show ((List.range N).mapM _ >>= fun boxSection => _) = _
  rw [hbox, exceptBind_ok]
  have hg := map_range_getD c.grid_sizes [] N (fun gs =>
    ([Tok.s nsL, Tok.tup (gs.map (· - 1)), Tok.s nsR] : List Tok)) hgrid
  rw [hg]
  have hd2 := map_range_getD c.dx [] N (fun d => (d.map Tok.q : Line)) hdxl
  rw [hd2]
  have hflat : ((List.range N).map (fun lv =>
        writtenLevel c.time (c.boxes.getD lv []) (c.step_numbers.getD lv 0) lv)).flatten
      = writtenPairs c.time 0 ((c.boxes.take N).zip (c.step_numbers.take N)) := by
    have h0 : (List.range N).map (fun lv =>
          writtenLevel c.time (c.boxes.getD lv []) (c.step_numbers.getD lv 0) lv)
        = (List.range' 0 N).map (fun lv =>
          writtenLevel c.time ((c.boxes.take N).getD (lv - 0) [])
            ((c.step_numbers.take N).getD (lv - 0) 0) lv) := by
      rw [List.range_eq_range']
      apply List.map_congr_left
      intro lv hlv
      have hlt : lv < N := by
        have h5 := List.mem_range'_1.mp hlv
        omega
      rw [Nat.sub_zero, getD_take_of_lt _ _ _ _ hlt, getD_take_of_lt _ _ _ _ hlt]
    rw [h0]
    have hlen : (c.boxes.take N).length = N := by
      rw [List.length_take]
      omega
    have h9 := flatten_range_written c.time (c.boxes.take N) (c.step_numbers.take N) 0
      (by rw [List.length_take, List.length_take]; omega)
    rw [hlen] at h9
    exact h9
  rw [hflat]
  simp only [List.cons_append, List.nil_append, List.append_assoc]

theorem writer_eval_header (c : Cooker) (field_names : List String) (N : ℕ)
    (nsL nsR : String)
    (hN : N = (c.limit_level + 1).toNat)
    (hnodup : field_names.Nodup)
    (hnd : (c.ndims = 3 ∧ nsL = "((0,0,0)" ∧ nsR = "(0,0,0))")
         ∨ (c.ndims = 2 ∧ nsL = "((0,0)" ∧ nsR = "(0,0))"))
    (hgrid : N ≤ c.grid_sizes.length)
    (hdxl : N ≤ c.dx.length)
    (hsteps : N ≤ c.step_numbers.length)
    (hboxlen : N ≤ c.boxes.length)
    (hboxdim : ∀ bxs ∈ c.boxes, ∀ b ∈ bxs, b.length = c.ndims.toNat) :
    write_global_header_new_fields c field_names
      = .ok (writtenHeader c field_names N nsL nsR) := by
  rw [writtenHeader]
  exact writer_eval c field_names N nsL nsR hN hnodup hnd hgrid hdxl hsteps hboxlen hboxdim

theorem reparse_eval (c : Cooker) (field_names : List String) (N : ℕ) (nsL nsR : String)
    (pfile2 : String) (cellH2 : String → Option (List CLine)) (cells2 : List LevelCells)
    (hN : N = (c.limit_level + 1).toNat)
    (hgrid : N ≤ c.grid_sizes.length)
    (hdxl : N ≤ c.dx.length)
    (hsteps : N ≤ c.step_numbers.length)
    (hboxlen : N ≤ c.boxes.length)
    (hboxdim : ∀ bxs ∈ c.boxes, ∀ b ∈ bxs, b.length = c.ndims.toNat)
    (hcl : readCellLevels cellH2 pfile2 ((dictSize field_names : ℕ) : ℤ) false
        ((List.range' 0 N).map (fun lv => "Level_" ++ toString lv)) = .ok cells2) :
    initCooker ⟨pfile2, writtenHeader c field_names N nsL nsR, cellH2⟩
        ⟨none, false, false, false, false⟩
      = .ok ⟨c.version, field_names, (field_names.length : ℤ), c.ndims, c.time,
             c.limit_level, c.geo_low, c.geo_high, c.factors.take N,
             c.grid_sizes.take N, c.step_numbers.take N, c.dx.take N, c.sys_coord,
             c.limit_level,
             stepOf 0 ((c.boxes.take N).zip (c.step_numbers.take N)),
             (geosOf 0 ((c.boxes.take N).zip (c.step_numbers.take N))).map
               (fun g => g.points),
             (geosOf 0 ((c.boxes.take N).zip (c.step_numbers.take N))).map
               (fun g => g.boxes),
             (geosOf 0 ((c.boxes.take N).zip (c.step_numbers.take N))).map
               (fun g => g.n_cells),
             (List.range' 0 N).map (fun lv => "Level_" ++ toString lv),
             some cells2, dictSize field_names⟩ := by
  have hlenP : ((c.boxes.take N).zip (c.step_numbers.take N)).length = N := by
    rw [List.length_zip, List.length_take, List.length_take]
    omega
  have hH : parseHeaderMeta (writtenHeader c field_names N nsL nsR)
      = .ok (⟨c.version, (field_names.length : ℤ), field_names, c.ndims, c.time,
              c.limit_level, c.geo_low, c.geo_high, c.factors.take N,
              c.grid_sizes.take N, c.step_numbers.take N, c.dx.take N, c.sys_coord⟩,
             writtenPairs c.time 0 ((c.boxes.take N).zip (c.step_numbers.take N))) := by
    rw [writtenHeader]
    exact parseHeaderMeta_roundtrip c.version field_names c.ndims c.time c.limit_level
      c.geo_low c.geo_high (c.factors.take N) (c.grid_sizes.take N)
      (c.step_numbers.take N) (c.dx.take N) c.sys_coord nsL nsR
      (writtenPairs c.time 0 ((c.boxes.take N).zip (c.step_numbers.take N)))
      (by rw [List.length_take]; omega)
  have hRB : read_boxes c.ndims.toNat (c.limit_level + 1).toNat
        (writtenPairs c.time 0 ((c.boxes.take N).zip (c.step_numbers.take N)))
      = .ok ((geosOf 0 ((c.boxes.take N).zip (c.step_numbers.take N)),
              stepOf 0 ((c.boxes.take N).zip (c.step_numbers.take N))), []) := by
    rw [read_boxes]
    have hdims : ∀ p ∈ (c.boxes.take N).zip (c.step_numbers.take N),
        ∀ b ∈ p.1, b.length = c.ndims.toNat := by
      intro p hp b hb
      have hp1 : p.1 ∈ c.boxes.take N := (List.of_mem_zip hp).1
      exact hboxdim p.1 (List.take_subset N c.boxes hp1) b hb
    have h2 := readBoxLevels_written c.ndims.toNat c.time
      ((c.boxes.take N).zip (c.step_numbers.take N)) 0 [] hdims
    rw [List.append_nil, hlenP] at h2
    rw [← hN]
    exact h2
  have hcd : (geosOf 0 ((c.boxes.take N).zip (c.step_numbers.take N))).map
        (fun g => g.cell_dir)
      = (List.range' 0 N).map (fun lv => "Level_" ++ toString lv) := by
    rw [geosOf_map_cell_dir, hlenP]
  show initCookerAux _ _ _ _ = _
  rw [initCookerAux]
  show (parseHeaderMeta (writtenHeader c field_names N nsL nsR) >>= fun p => _) = _
  rw [hH, exceptBind_ok]
  show (resolveLimit none c.limit_level >>= fun ll =>
    wrapValidate false boxesMsg (read_boxes c.ndims.toNat (ll + 1).toNat
      (writtenPairs c.time 0 ((c.boxes.take N).zip (c.step_numbers.take N))))
      >>= fun d => _) = _
  rw [show resolveLimit none c.limit_level = .ok c.limit_level from rfl, exceptBind_ok]
  show (wrapValidate false boxesMsg (read_boxes c.ndims.toNat (c.limit_level + 1).toNat
      (writtenPairs c.time 0 ((c.boxes.take N).zip (c.step_numbers.take N))))
      >>= fun d => _) = _
  rw [hRB, wrapValidate_ok, exceptBind_ok]
  show ((wrapValidate false cellsMsg (readCellLevels cellH2 pfile2
      ((dictSize field_names : ℕ) : ℤ) false
      ((geosOf 0 ((c.boxes.take N).zip (c.step_numbers.take N))).map
        (fun g => g.cell_dir)))
    >>= fun cs => (Except.ok (some cs) : Except PyErr (Option (List LevelCells))))
      >>= fun cells => _) = _
  rw [hcd, hcl, wrapValidate_ok, exceptBind_ok, exceptBind_ok]
  rfl

theorem pfEq_of_parts (a b : Cooker) (N : ℕ) (ca cb : List LevelCells)
    (hll : b.limit_level = a.limit_level)
    (hN : N = (a.limit_level + 1).toNat)
    (hbb : b.boxes = a.boxes.take N)
    (hab : N ≤ a.boxes.length)
    (hca : a.cells = some ca) (hcb : b.cells = some cb)
    (hidx : ∀ lv < N, ∃ xa xb, pyIdx ca (lv : ℤ) = .ok xa ∧
        pyIdx cb (lv : ℤ) = .ok xb ∧ xa.indexes = xb.indexes) :
    pfEq a b = .ok true := by
  rw [pfEq]
  rw [if_neg (show ¬(a.limit_level ≠ b.limit_level) from fun hne => hne hll.symm)]
  rw [← hN]
  have hB : pfEqBoxes a b (List.range N) = .ok true := by
    apply pfEqBoxes_ok_true
    intro lv hlv
    have hlt : lv < N := List.mem_range.mp hlv
    refine ⟨a.boxes.getD lv [], pyIdx_natCast a.boxes lv [] (lt_of_lt_of_le hlt hab), ?_⟩
    rw [hbb]
    have h7 : lv < (a.boxes.take N).length := by
      rw [List.length_take]
      omega
    rw [pyIdx_natCast (a.boxes.take N) lv [] h7, getD_take_of_lt _ _ _ _ hlt]
  show (pfEqBoxes a b (List.range N) >>= fun r1 => _) = _
  rw [hB, exceptBind_ok, if_pos rfl]
  have hC : pfEqCells a b (List.range N) = .ok true := by
    apply pfEqCells_ok_true a b ca cb hca hcb
    intro lv hlv
    exact hidx lv (List.mem_range.mp hlv)
  show (pfEqCells a b (List.range N) >>= fun r2 => _) = _
  rw [hC, exceptBind_ok, if_pos rfl]

/-- C1: serializing a parsed plotfile model with
`write_global_header_new_fields` (for any duplicate-free subset of its
field names) and re-parsing the written header with `PlotfileCooker`
succeeds and yields a model equal to the original under the `__eq__`
interface: same `limit_level`, `np.allclose`-equal box geometries at
every level `0 .. limit_level`, and equal global index ranges at every
level (the target plotfile's per-level `Cell_H` headers carry the same
index ranges at the new field count, since the writer rewrites only the
global header, never the binary layout). -/
theorem header_roundtrip_eq (disk : PlotfileDisk) (orig : Cooker)
    (field_names : List String) (N : ℕ) (nsL nsR : String)
    (pfile2 : String) (cellH2 : String → Option (List CLine))
    (origCells cells2 : List LevelCells)
    (h0 : initCooker disk ⟨none, false, false, false, false⟩ = .ok orig)
    (hN : N = (orig.limit_level + 1).toNat)
    (hnodup : field_names.Nodup)
    (hsub : ∀ f ∈ field_names, f ∈ orig.fields)
    (hnd : (orig.ndims = 3 ∧ nsL = "((0,0,0)" ∧ nsR = "(0,0,0))")
         ∨ (orig.ndims = 2 ∧ nsL = "((0,0)" ∧ nsR = "(0,0))"))
    (hgrid : N ≤ orig.grid_sizes.length)
    (hdxl : N ≤ orig.dx.length)
    (hsteps : N ≤ orig.step_numbers.length)
    (hboxlen : N ≤ orig.boxes.length)
    (hboxdim : ∀ bxs ∈ orig.boxes, ∀ b ∈ bxs, b.length = orig.ndims.toNat)
    (horig : orig.cells = some origCells)
    (hcl : readCellLevels cellH2 pfile2 ((dictSize field_names : ℕ) : ℤ) false
        ((List.range' 0 N).map (fun lv => "Level_" ++ toString lv)) = .ok cells2)
    (hidx : ∀ lv < N, ∃ xa xb, pyIdx origCells (lv : ℤ) = .ok xa ∧
        pyIdx cells2 (lv : ℤ) = .ok xb ∧ xa.indexes = xb.indexes) :
    ∃ written c2,
      write_global_header_new_fields orig field_names = .ok written ∧
      initCooker ⟨pfile2, written, cellH2⟩ ⟨none, false, false, false, false⟩
        = .ok c2 ∧
      c2.limit_level = orig.limit_level ∧
      pfEq orig c2 = .ok true := by
  have hb2 : (geosOf 0 ((orig.boxes.take N).zip (orig.step_numbers.take N))).map
      (fun g => g.boxes) = orig.boxes.take N := by
    rw [geosOf_map_boxes]
    exact List.map_fst_zip _ _ (by rw [List.length_take, List.length_take]; omega)
  exact ⟨writtenHeader orig field_names N nsL nsR,
    ⟨orig.version, field_names, (field_names.length : ℤ), orig.ndims, orig.time,
     orig.limit_level, orig.geo_low, orig.geo_high, orig.factors.take N,
     orig.grid_sizes.take N, orig.step_numbers.take N, orig.dx.take N,
     orig.sys_coord, orig.limit_level,
     stepOf 0 ((orig.boxes.take N).zip (orig.step_numbers.take N)),
     (geosOf 0 ((orig.boxes.take N).zip (orig.step_numbers.take N))).map
       (fun g => g.points),
     (geosOf 0 ((orig.boxes.take N).zip (orig.step_numbers.take N))).map
       (fun g => g.boxes),
     (geosOf 0 ((orig.boxes.take N).zip (orig.step_numbers.take N))).map
       (fun g => g.n_cells),
     (List.range' 0 N).map (fun lv => "Level_" ++ toString lv),
     some cells2, dictSize field_names⟩,
    writer_eval_header orig field_names N nsL nsR hN hnodup hnd hgrid hdxl hsteps
      hboxlen hboxdim,
    reparse_eval orig field_names N nsL nsR pfile2 cellH2 cells2 hN hgrid hdxl
      hsteps hboxlen hboxdim hcl,
    rfl,
    pfEq_of_parts orig _ N origCells cells2 rfl hN hb2 hboxlen horig rfl hidx⟩

/-- Witness for C1: the minimal plotfile parses to `roundCooker`, and
writing its header (with the full field subset) and re-parsing gives a
model `__eq__`-equal to it. -/
theorem header_roundtrip_eq_witness :
    initCooker roundDisk ⟨none, false, false, false, false⟩ = .ok roundCooker ∧
    ∃ written c2,
      write_global_header_new_fields roundCooker ["temp"] = .ok written ∧
      initCooker ⟨"pf2", written, roundDisk.cellH⟩ ⟨none, false, false, false, false⟩
        = .ok c2 ∧
      c2.limit_level = roundCooker.limit_level ∧
      pfEq roundCooker c2 = .ok true :=
  ⟨rfl,
   header_roundtrip_eq roundDisk roundCooker ["temp"] 1 "((0,0)" "(0,0))" "pf2"
     roundDisk.cellH
     [⟨[([0, 0], [3, 3])], ["pf/Level_0/Cell_D_00000"], [0], none, none⟩]
     [⟨[([0, 0], [3, 3])], ["pf2/Level_0/Cell_D_00000"], [0], none, none⟩]
     rfl (by decide) (by decide) (by decide)
     (Or.inr ⟨rfl, rfl, rfl⟩)
     (by decide) (by decide) (by decide) (by decide) (by decide)
     rfl
     rfl
     (fun lv hlv => by
       have h : lv = 0 := by omega
       subst h
       exact ⟨⟨[([0, 0], [3, 3])], ["pf/Level_0/Cell_D_00000"], [0], none, none⟩,
         ⟨[([0, 0], [3, 3])], ["pf2/Level_0/Cell_D_00000"], [0], none, none⟩,
         by decide, by decide, rfl⟩)⟩
